import Mathlib

/-!
# APIClient (src/week15/apiClient.js): a shallow embedding

The client is a JavaScript class with a time-bounded response cache, two
interceptor chains, a timed transport call and a retry loop.  The embedding
keeps the object state (`APIClient`) and the outside world as the client
observes it (`Env`: the clock, the number of `fetch` calls so far, the retry
waits, the interceptor invocations) as explicit values that every method takes
and returns.  The behaviour of the network is a parameter (`Runtime`).

Console logging has no effect on control flow or state and is not modelled;
the `enableLogging` flag is kept.
-/

namespace APIClientModel

/-! ## JavaScript values -/

/-- JavaScript values that travel through the client: decoded JSON payloads and
the `undefined` an interceptor may return.  Numbers are integers here. -/
inductive JSValue where
  | undefined : JSValue
  | null : JSValue
  | bool (b : Bool) : JSValue
  | num (n : Int) : JSValue
  | str (s : String) : JSValue
  | arr (xs : List JSValue) : JSValue
  | obj (fields : List (String × JSValue)) : JSValue

/-- JavaScript truthiness, as tested by `if (v)`, `!v` and `v || d`. -/
def JSValue.truthy : JSValue → Bool
  | .undefined => false
  | .null => false
  | .bool b => b
  | .num n => n != 0
  | .str s => s != ""
  | .arr _ => true
  | .obj _ => true

/-- A thrown JavaScript error: its `name` and its `message`. -/
structure JSError where
  name : String
  message : String
  deriving DecidableEq, Repr

/-- The value of `new Error(message)`. -/
def JSError.mkError (message : String) : JSError :=
  { name := "Error", message := message }

/-! ## Request options, responses, the network -/

/-- The `options` object of a request: the fields the client reads or writes. -/
structure RequestOptions where
  method : Option String := none
  headers : List (String × String) := []
  body : Option String := none
  forceRefresh : Bool := false
  deriving DecidableEq, Repr

/-- The expression `options.method || 'GET'`: an absent or empty method reads as GET. -/
def RequestOptions.methodOrGet (options : RequestOptions) : String :=
  match options.method with
  | some m => if m = "" then "GET" else m
  | none => "GET"

/-- A completed `fetch` response: `ok`, `status`, and what `response.json()`
gives (a decoded payload, or the error it raises). -/
structure Response where
  ok : Bool
  status : Nat
  json : Except JSError JSValue

/-- How one `fetch` call settles: it resolves with a response or rejects with an
error (an abort by the timeout signal rejects with an error named `AbortError`). -/
inductive FetchResult where
  | resolved (r : Response) : FetchResult
  | rejected (e : JSError) : FetchResult

/-- The platform under the client.  `fetch i url options` is how the `i`-th
`fetch` call of the run (counted from 0) settles, `latency i` how long it takes,
`stringify` is `JSON.stringify`. -/
structure Runtime where
  fetch : Nat → String → RequestOptions → FetchResult
  latency : Nat → Nat
  stringify : JSValue → String

/-- What a call of a request interceptor that does not throw leaves behind.  The
interceptor is handed the options object itself and may write to it: `written`
is that object as the call left it (the object as it was, when the interceptor
does not write), `returned` the value the call returned, `some o` for an options
object `o` and `none` for a falsy return, nothing returned included. -/
structure RequestInterception where
  written : RequestOptions
  returned : Option RequestOptions
  deriving DecidableEq, Repr

/-- A request interceptor, as a function of the URL and the options object it is
handed; it may throw. -/
abbrev RequestInterceptor := String → RequestOptions → Except JSError RequestInterception

/-- What a call of a response interceptor that does not throw leaves behind.  The
interceptor is handed the data itself, by reference, and may write to it:
`written` is that value as the call left it, `returned` the value the call
returned, `JSValue.undefined` when it returned nothing. -/
structure ResponseInterception where
  written : JSValue
  returned : JSValue

/-- A response interceptor, as a function of the response and the data it is
handed; it may throw. -/
abbrev ResponseInterceptor := Response → JSValue → Except JSError ResponseInterception

/-! ## The cache: a `Map` in insertion order -/

/-- A cache entry `{ data, timestamp }`. -/
structure CacheEntry where
  data : JSValue
  timestamp : Int

/-- The `Map` from cache keys to entries, in insertion order. -/
abbrev Cache := List (String × CacheEntry)

/-- The method `Map.prototype.get`. -/
def Cache.get : Cache → String → Option CacheEntry
  | [], _ => none
  | (k, e) :: rest, key => if k = key then some e else Cache.get rest key

/-- The method `Map.prototype.delete`. -/
def Cache.delete (cache : Cache) (key : String) : Cache :=
  cache.filter (fun p => decide (p.1 ≠ key))

/-- The method `Map.prototype.set`: overwrite in place, or append a new key. -/
def Cache.set : Cache → String → CacheEntry → Cache
  | [], key, e => [(key, e)]
  | (k, e0) :: rest, key, e =>
    if k = key then (k, e) :: rest else (k, e0) :: Cache.set rest key e

/-- The method `Map.prototype.keys`, as an array. -/
def Cache.keys (cache : Cache) : List String :=
  cache.map Prod.fst

/-- The method `String.prototype.includes`: `pattern` occurs in `key` as a substring. -/
def includes (key pattern : String) : Bool :=
  decide (pattern.toList <:+: key.toList)

/-! ## The client object and the world -/

/-- The fields of an `APIClient` instance. -/
structure APIClient where
  baseURL : String
  timeout : Int
  maxRetries : Nat
  requestInterceptors : List RequestInterceptor
  responseInterceptors : List ResponseInterceptor
  enableLogging : Bool
  cache : Cache
  cacheTTL : Int
  enableCache : Bool

/-- The world as the client observes and affects it: the clock read by
`Date.now()`, the number of `fetch` calls made so far, the waits of the retry
loop in order, and the number of interceptor invocations. -/
structure Env where
  now : Int
  fetchCalls : Nat := 0
  waits : List Int := []
  requestInterceptorCalls : Nat := 0
  responseInterceptorCalls : Nat := 0

/-- The second argument of the constructor; an absent field is `none`. -/
structure ClientOptions where
  timeout : Option Int := none
  maxRetries : Option Nat := none
  enableLogging : Option Bool := none
  cacheTTL : Option Int := none
  enableCache : Option Bool := none

/-- The expression `x || d` on an optional number: absent and `0` both give `d`. -/
def orDefault {α : Type} [DecidableEq α] [Zero α] (x : Option α) (d : α) : α :=
  match x with
  | some v => if v = 0 then d else v
  | none => d

/-- The constructor `new APIClient(baseURL, options)`. -/
def APIClient.new (baseURL : String) (options : ClientOptions := {}) : APIClient :=
  { baseURL := baseURL
    timeout := orDefault options.timeout 10000
    maxRetries := orDefault options.maxRetries 2
    requestInterceptors := []
    responseInterceptors := []
    enableLogging := options.enableLogging.getD false
    cache := []
    cacheTTL := orDefault options.cacheTTL 60000
    enableCache := options.enableCache != some false }

/-! ## Cache management -/

/-- The method `getCacheKey(url, options)`. -/
def getCacheKey (url : String) (options : RequestOptions) : String :=
  options.methodOrGet ++ ":" ++ url

/-- The method `getFromCache(key)` at clock reading `now`: the returned value
(`null` for a miss) and the client afterwards. -/
def getFromCache (c : APIClient) (key : String) (now : Int) : JSValue × APIClient :=
  if !c.enableCache then (.null, c)
  else
    match c.cache.get key with
    | none => (.null, c)
    | some cached =>
      if now - cached.timestamp > c.cacheTTL then
        (.null, { c with cache := c.cache.delete key })
      else (cached.data, c)

/-- The method `setCache(key, data)` at clock reading `now`. -/
def setCache (c : APIClient) (key : String) (data : JSValue) (now : Int) : APIClient :=
  if !c.enableCache then c
  else { c with cache := c.cache.set key { data := data, timestamp := now } }

/-- The method `clearCache()`. -/
def clearCache (c : APIClient) : APIClient :=
  { c with cache := [] }

/-- One element of the `entries` array of `getCacheStats()`. -/
structure CacheStatsEntry where
  key : String
  age : Int
  expiresIn : Int
  deriving DecidableEq, Repr

/-- The object `getCacheStats()` returns. -/
structure CacheStats where
  size : Nat
  keys : List String
  entries : List CacheStatsEntry
  deriving DecidableEq, Repr

/-- The method `getCacheStats()`, every `Date.now()` of the call reading `now`. -/
def getCacheStats (c : APIClient) (now : Int) : CacheStats :=
  { size := c.cache.length
    keys := c.cache.keys
    entries := c.cache.map (fun p =>
      { key := p.1
        age := now - p.2.timestamp
        expiresIn := c.cacheTTL - (now - p.2.timestamp) }) }

/-- The method `invalidateCache(pattern)`: walk a snapshot of the keys and delete
each one that includes the pattern. -/
def invalidateCache (c : APIClient) (pattern : String) : APIClient :=
  let keys := c.cache.keys
  let cache := keys.foldl
    (fun (cache : Cache) key => if includes key pattern then cache.delete key else cache) c.cache
  { c with cache := cache }

/-! ## Interceptors -/

/-- The method `addRequestInterceptor(interceptor)`: push at the end. -/
def addRequestInterceptor (c : APIClient) (interceptor : RequestInterceptor) : APIClient :=
  { c with requestInterceptors := c.requestInterceptors ++ [interceptor] }

/-- The method `addResponseInterceptor(interceptor)`: push at the end. -/
def addResponseInterceptor (c : APIClient) (interceptor : ResponseInterceptor) : APIClient :=
  { c with responseInterceptors := c.responseInterceptors ++ [interceptor] }

/-- The `for` loop of `applyRequestInterceptors` over the interceptors still to
run, with the current `modifiedOptions`: a truthy result replaces it, and after
a falsy one the variable still holds the object the interceptor was handed, as
the interceptor left it. -/
def applyRequestInterceptorsLoop (url : String) :
    List RequestInterceptor → RequestOptions → Env → Except JSError RequestOptions × Env
  | [], modifiedOptions, env => (.ok modifiedOptions, env)
  | interceptor :: rest, modifiedOptions, env =>
    let env1 := { env with requestInterceptorCalls := env.requestInterceptorCalls + 1 }
    match interceptor url modifiedOptions with
    | .error e => (.error e, env1)
    | .ok ⟨_, some result⟩ => applyRequestInterceptorsLoop url rest result env1
    | .ok ⟨written, none⟩ => applyRequestInterceptorsLoop url rest written env1

/-- The method `applyRequestInterceptors(url, options)`.  The loop starts on the copy
`{ ...options }`, a fresh object with the fields of `options`: the writes of the
interceptors go to the copy. -/
def applyRequestInterceptors (c : APIClient) (url : String) (options : RequestOptions)
    (env : Env) : Except JSError RequestOptions × Env :=
  applyRequestInterceptorsLoop url c.requestInterceptors options env

/-- The `for` loop of `applyResponseInterceptors`: a result other than
`undefined` replaces `modifiedData`, and after `undefined` the variable still
holds the value the interceptor was handed, as the interceptor left it. -/
def applyResponseInterceptorsLoop (response : Response) :
    List ResponseInterceptor → JSValue → Env → Except JSError JSValue × Env
  | [], modifiedData, env => (.ok modifiedData, env)
  | interceptor :: rest, modifiedData, env =>
    let env1 := { env with responseInterceptorCalls := env.responseInterceptorCalls + 1 }
    match interceptor response modifiedData with
    | .error e => (.error e, env1)
    | .ok ⟨written, .undefined⟩ => applyResponseInterceptorsLoop response rest written env1
    | .ok ⟨_, result⟩ => applyResponseInterceptorsLoop response rest result env1

/-- The method `applyResponseInterceptors(response, data)`. -/
def applyResponseInterceptors (c : APIClient) (response : Response) (data : JSValue)
    (env : Env) : Except JSError JSValue × Env :=
  applyResponseInterceptorsLoop response c.responseInterceptors data env

/-! ## Transport and retry -/

/-- The method `fetchWithTimeout(url, options)`: one `fetch` call; an
`AbortError` becomes the timeout error, any other error is rethrown. -/
def fetchWithTimeout (rt : Runtime) (c : APIClient) (url : String) (options : RequestOptions)
    (env : Env) : Except JSError Response × Env :=
  let env1 := { env with
    fetchCalls := env.fetchCalls + 1
    now := env.now + rt.latency env.fetchCalls }
  match rt.fetch env.fetchCalls url options with
  | .resolved response => (.ok response, env1)
  | .rejected error =>
    if error.name = "AbortError" then
      (.error (JSError.mkError ("Request timeout after " ++ toString c.timeout ++ "ms")), env1)
    else (.error error, env1)

/-- The `await new Promise(resolve => setTimeout(resolve, ms))` of the retry loop. -/
def sleep (ms : Int) (env : Env) : Env :=
  { env with waits := env.waits ++ [ms], now := env.now + ms }

/-- The method `requestWithRetry(url, options, retries)`. -/
@[semireducible]
def requestWithRetry (rt : Runtime) (c : APIClient) (url : String) (options : RequestOptions)
    (retries : Nat) (env : Env) : Except JSError Response × Env :=
  match fetchWithTimeout rt c url options env with
  | (.ok response, env1) => (.ok response, env1)
  | (.error error, env1) =>
    if retries < c.maxRetries then
      requestWithRetry rt c url options (retries + 1) (sleep (1000 * (retries + 1)) env1)
    else (.error error, env1)
termination_by c.maxRetries - retries
decreasing_by omega

/-! ## The request pipeline -/

/-- The method `String.prototype.split` on a one-character separator, over the
characters of the string. -/
def splitChars (sep : Char) : List Char → List (List Char)
  | [] => [[]]
  | ch :: rest =>
    if ch = sep then [] :: splitChars sep rest
    else
      match splitChars sep rest with
      | [] => [[ch]]
      | piece :: pieces => (ch :: piece) :: pieces

/-- The expression `endpoint.split('/')[1] || endpoint`: the pattern `request`
hands to `invalidateCache`. -/
def invalidationPattern (endpoint : String) : String :=
  match (splitChars '/' endpoint.toList)[1]? with
  | some piece => if piece = [] then endpoint else String.mk piece
  | none => endpoint

/-- The own enumerable properties a spread `{ ...v }` copies: the fields of an
object, the indexed elements of an array, the indexed characters of a string,
nothing for the other primitives. -/
def ownProperties : JSValue → List (String × JSValue)
  | .obj fields => fields
  | .arr xs => xs.enum.map (fun p => (toString p.1, p.2))
  | .str s => s.toList.enum.map (fun p => (toString p.1, JSValue.str (String.mk [p.2])))
  | _ => []

/-- Writing a property of an object literal: overwrite in place or append. -/
def setProperty : List (String × JSValue) → String → JSValue → List (String × JSValue)
  | [], name, v => [(name, v)]
  | (k, v0) :: rest, name, v =>
    if k = name then (k, v) :: rest else (k, v0) :: setProperty rest name v

/-- The object literal `{ ...data, fromCache: flag }`. -/
def withFromCache (data : JSValue) (flag : Bool) : JSValue :=
  .obj (setProperty (ownProperties data) "fromCache" (.bool flag))

/-- The two cache statements of `request` after the response interceptors, at
clock reading `now`: a GET stores the data under its key, a POST, PUT or DELETE
invalidates by the pattern taken from the endpoint. -/
def cacheUpdate (c : APIClient) (endpoint : String) (options : RequestOptions)
    (data : JSValue) (now : Int) : APIClient :=
  let url := c.baseURL ++ endpoint
  let cacheKey := getCacheKey url options
  let method := options.methodOrGet
  let c1 := if method = "GET" then setCache c cacheKey data now else c
  if method ∈ ["POST", "PUT", "DELETE"] then
    invalidateCache c1 (invalidationPattern endpoint)
  else c1

/-- The part of `request` after the cache check (from the request interceptors to
the returned envelope). -/
def requestLive (rt : Runtime) (c : APIClient) (endpoint : String) (options : RequestOptions)
    (env : Env) : Except JSError JSValue × APIClient × Env :=
  let url := c.baseURL ++ endpoint
  match applyRequestInterceptors c url options env with
  | (.error e, env1) => (.error e, c, env1)
  | (.ok modifiedOptions, env1) =>
    match requestWithRetry rt c url modifiedOptions 0 env1 with
    | (.error e, env2) => (.error e, c, env2)
    | (.ok response, env2) =>
      if !response.ok then
        (.error (JSError.mkError ("HTTP Error: " ++ toString response.status)), c, env2)
      else
        match response.json with
        | .error e => (.error e, c, env2)
        | .ok decoded =>
          match applyResponseInterceptors c response decoded env2 with
          | (.error e, env3) => (.error e, c, env3)
          | (.ok data, env3) =>
            (.ok (withFromCache data false), cacheUpdate c endpoint options data env3.now, env3)

/-- The method `request(endpoint, options)`: the result or the thrown error, the
client afterwards, the world afterwards. -/
def request (rt : Runtime) (c : APIClient) (endpoint : String) (options : RequestOptions)
    (env : Env) : Except JSError JSValue × APIClient × Env :=
  let url := c.baseURL ++ endpoint
  let cacheKey := getCacheKey url options
  let method := options.methodOrGet
  if method = "GET" ∧ options.forceRefresh = false then
    match getFromCache c cacheKey env.now with
    | (cachedData, c1) =>
      if cachedData.truthy then (.ok (withFromCache cachedData true), c1, env)
      else requestLive rt c1 endpoint options env
  else requestLive rt c endpoint options env

/-- The method `get(endpoint, options)`. -/
def get (rt : Runtime) (c : APIClient) (endpoint : String) (options : RequestOptions := {})
    (env : Env) : Except JSError JSValue × APIClient × Env :=
  request rt c endpoint { options with method := some "GET" } env

/-- The method `post(endpoint, data)`. -/
def post (rt : Runtime) (c : APIClient) (endpoint : String) (data : JSValue)
    (env : Env) : Except JSError JSValue × APIClient × Env :=
  request rt c endpoint
    { method := some "POST"
      headers := [("Content-Type", "application/json")]
      body := some (rt.stringify data) } env

/-- The method `put(endpoint, data)`. -/
def put (rt : Runtime) (c : APIClient) (endpoint : String) (data : JSValue)
    (env : Env) : Except JSError JSValue × APIClient × Env :=
  request rt c endpoint
    { method := some "PUT"
      headers := [("Content-Type", "application/json")]
      body := some (rt.stringify data) } env

/-- The method `delete(endpoint)`. -/
def delete (rt : Runtime) (c : APIClient) (endpoint : String)
    (env : Env) : Except JSError JSValue × APIClient × Env :=
  request rt c endpoint { method := some "DELETE" } env

/-! ## Notions used to state the properties -/

/-- Every `fetch` call rejects, whatever the call number, URL and options. -/
def AlwaysFails (rt : Runtime) : Prop :=
  ∀ i url options, ∃ e, rt.fetch i url options = .rejected e

/-- Every `fetch` call is aborted by the timeout signal. -/
def AlwaysTimesOut (rt : Runtime) : Prop :=
  ∀ i url options, ∃ e, rt.fetch i url options = .rejected e ∧ e.name = "AbortError"

/-- Reading a property `v.name` of a returned object. -/
def getProperty : JSValue → String → Option JSValue
  | .obj fields, name => (fields.find? (fun p => p.1 = name)).map Prod.snd
  | _, _ => none

/-- The test `request` makes before going to the network: the method is GET,
`forceRefresh` is off and the lookup gives a truthy value. -/
def cacheHit (c : APIClient) (endpoint : String) (options : RequestOptions) (now : Int) : Bool :=
  decide (options.methodOrGet = "GET" ∧ options.forceRefresh = false) &&
    (getFromCache c (getCacheKey (c.baseURL ++ endpoint) options) now).1.truthy

/-- The client as the cache check of `request` leaves it: the lookup runs for a GET
without `forceRefresh` only. -/
def afterLookup (c : APIClient) (endpoint : String) (options : RequestOptions) (now : Int) :
    APIClient :=
  if options.methodOrGet = "GET" ∧ options.forceRefresh = false then
    (getFromCache c (getCacheKey (c.baseURL ++ endpoint) options) now).2
  else c

/-- The first path segment of an endpoint as the specification words it: the first
non-empty piece between slashes (`posts` for `/posts/1` and for `posts/1`). -/
def firstPathSegment (endpoint : String) : String :=
  match (splitChars '/' endpoint.toList).filter (fun piece => !piece.isEmpty) with
  | piece :: _ => String.mk piece
  | [] => ""

/-- The request phase as the specification words it: a fold of the interceptors,
in order, over the options, where an interceptor that returns nothing leaves
the accumulated options unchanged and a failure stops the fold. -/
def requestPhaseSpec (url : String) (interceptors : List RequestInterceptor)
    (options : RequestOptions) : Except JSError RequestOptions :=
  interceptors.foldlM
    (fun acc interceptor => (interceptor url acc).map (fun out => out.returned.getD acc)) options

/-- The request phase as a fold in which an interceptor that returns nothing
leaves the accumulated options as it left the object it was handed. -/
def requestPhaseFold (url : String) (interceptors : List RequestInterceptor)
    (options : RequestOptions) : Except JSError RequestOptions :=
  interceptors.foldlM
    (fun acc interceptor => (interceptor url acc).map (fun out => out.returned.getD out.written))
    options

/-- The interceptor, whenever it returns nothing, has not written to the options
object it was handed. -/
def SilentWithoutWriting (url : String) (interceptor : RequestInterceptor) : Prop :=
  ∀ acc out, interceptor url acc = .ok out → out.returned = none → out.written = acc

/-- One step of the response phase as the specification words it: the "no
replacement" value `undefined` keeps the data, any other value replaces it. -/
def replaceUnlessUndefined (data result : JSValue) : JSValue :=
  match result with
  | .undefined => data
  | v => v

/-- The response phase as the specification words it: on `undefined` the data is
the data the interceptor was called with. -/
def responsePhaseSpec (response : Response) (interceptors : List ResponseInterceptor)
    (data : JSValue) : Except JSError JSValue :=
  interceptors.foldlM
    (fun acc interceptor =>
      (interceptor response acc).map (fun out => replaceUnlessUndefined acc out.returned)) data

/-- The response phase as a fold in which, on `undefined`, the data is the value
the interceptor was handed as the interceptor left it. -/
def responsePhaseFold (response : Response) (interceptors : List ResponseInterceptor)
    (data : JSValue) : Except JSError JSValue :=
  interceptors.foldlM
    (fun acc interceptor =>
      (interceptor response acc).map
        (fun out => replaceUnlessUndefined out.written out.returned)) data

/-- The response interceptor, whenever it returns `undefined`, has not written to
the data it was handed. -/
def UndefinedWithoutWriting (response : Response) (interceptor : ResponseInterceptor) : Prop :=
  ∀ acc out, interceptor response acc = .ok out → out.returned = .undefined → out.written = acc

/-- Linear backoff as the specification words it: the waits before the first `n`
retries, the `k`-th being `k` times the base delay of 1000 ms. -/
def linearBackoff (n : Nat) : List Int :=
  (List.range n).map (fun (j : Nat) => 1000 * ((j : Int) + 1))

/-- The time on the clock from the start of the attempt made with `retries`
retries behind it, the transport call numbered `firstCall`, to the start of the
attempt `n` attempts later, when the `n` attempts between fail: each takes its
latency and is followed by a wait of 1000 ms times its own number. -/
def retryElapsed (rt : Runtime) (firstCall retries : Nat) : Nat → Int
  | 0 => 0
  | n + 1 =>
    retryElapsed rt firstCall retries n + (rt.latency (firstCall + n) : Int)
      + 1000 * (((retries + n : Nat) : Int) + 1)

/-- The second client is the first one with, at most, another cache: the
configuration and the interceptors are the same. -/
def SameConfig (c c' : APIClient) : Prop :=
  c' = { c with cache := c'.cache }

/-! ## Sequences of calls on one client -/

/-- One call of the public surface of the client. -/
inductive Call where
  | get (endpoint : String) (options : RequestOptions) : Call
  | post (endpoint : String) (data : JSValue) : Call
  | put (endpoint : String) (data : JSValue) : Call
  | delete (endpoint : String) : Call

/-- Running one call: the method named by the call, on the client and the world. -/
def perform (rt : Runtime) (c : APIClient) (env : Env) :
    Call → Except JSError JSValue × APIClient × Env
  | .get endpoint options => get rt c endpoint options env
  | .post endpoint data => post rt c endpoint data env
  | .put endpoint data => put rt c endpoint data env
  | .delete endpoint => delete rt c endpoint env

/-- A call together with the time that passes on the clock before it is made. -/
structure Step where
  idle : Int
  call : Call

/-- A client in use: the client, the world, and the calls made so far with what
each returned or threw, oldest first. -/
structure Session where
  client : APIClient
  env : Env
  outcomes : List (Call × Except JSError JSValue)

/-- A session that is about to make its first call. -/
def Session.start (c : APIClient) (env : Env) : Session :=
  { client := c, env := env, outcomes := [] }

/-- The session after one more step. -/
def Session.step (rt : Runtime) (s : Session) (st : Step) : Session :=
  let res := perform rt s.client { s.env with now := s.env.now + st.idle } st.call
  { client := res.2.1, env := res.2.2, outcomes := s.outcomes ++ [(st.call, res.1)] }

/-- The session after a sequence of steps, made one after the other. -/
def Session.run (rt : Runtime) (s : Session) (steps : List Step) : Session :=
  steps.foldl (Session.step rt) s

/-- The call `getCacheStats()` as a step of the client: the object it returns and
the client afterwards.  The method assigns no field and calls no writer of the
`Map`, so the client afterwards is the client it was called on. -/
def getCacheStatsCall (c : APIClient) (now : Int) : CacheStats × APIClient :=
  (getCacheStats c now, c)

/-! ## Sample inputs -/

/-- A server that answers every call with status 200 and the given payload, in 40 ms. -/
def serverReturning (payload : JSValue) : Runtime :=
  { fetch := fun _ _ _ => .resolved { ok := true, status := 200, json := .ok payload }
    latency := fun _ => 40
    stringify := fun _ => "{}" }

/-- A server that answers every call with the given non-success status. -/
def serverRefusing (status : Nat) : Runtime :=
  { fetch := fun _ _ _ => .resolved { ok := false, status := status, json := .ok .null }
    latency := fun _ => 40
    stringify := fun _ => "{}" }

/-- A network on which every call is aborted by the timeout signal. -/
def deadNetwork : Runtime :=
  { fetch := fun _ _ _ => .rejected { name := "AbortError", message := "The operation was aborted." }
    latency := fun _ => 10000
    stringify := fun _ => "{}" }

/-- The base address of the sample clients. -/
def sampleBase : String := "https://api.example.com"

/-- A user object. -/
def sampleUser : JSValue := .obj [("id", .num 1), ("name", .str "Ann")]

/-- A client with the default configuration and one cached read of `/posts`,
captured at time 1000. -/
def clientWithPosts : APIClient :=
  { APIClient.new sampleBase with
    cache := [("GET:https://api.example.com/posts",
      { data := .arr [sampleUser], timestamp := 1000 })] }

/-- The same client behind a base address that ends in a slash, for endpoints
written without a leading one. -/
def clientWithPostsSlashBase : APIClient :=
  { clientWithPosts with baseURL := "https://api.example.com/" }

/-- A request interceptor that sets a header on the options object it is handed
and returns that object. -/
def stampHeader (name value : String) : RequestInterceptor :=
  fun _ options =>
    .ok { written := { options with headers := options.headers ++ [(name, value)] }
          returned := some { options with headers := options.headers ++ [(name, value)] } }

/-- A request interceptor that does nothing and returns nothing. -/
def silentInterceptor : RequestInterceptor :=
  fun _ options => .ok { written := options, returned := none }

/-- A request interceptor that sets a header on the options object it is handed
and returns nothing. -/
def silentWriter (name value : String) : RequestInterceptor :=
  fun _ options =>
    .ok { written := { options with headers := options.headers ++ [(name, value)] }
          returned := none }

/-- A request interceptor that throws. -/
def refusingInterceptor (message : String) : RequestInterceptor :=
  fun _ _ => .error (JSError.mkError message)

/-- A response interceptor that returns a fixed value and writes nothing. -/
def constantResponse (v : JSValue) : ResponseInterceptor :=
  fun _ data => .ok { written := data, returned := v }

/-- A response interceptor that sets a field on the data it is handed, when that
is an object, and returns nothing. -/
def tagInPlace (name : String) (v : JSValue) : ResponseInterceptor :=
  fun _ data =>
    .ok { written := (match data with
            | .obj fields => .obj (setProperty fields name v)
            | other => other)
          returned := .undefined }

/-! ## Facts about the `Map` operations -/

theorem Cache.mem_delete (cache : Cache) (key : String) (p : String × CacheEntry) :
    p ∈ cache.delete key ↔ p ∈ cache ∧ p.1 ≠ key := by
  simp [Cache.delete, List.mem_filter]

theorem Cache.get_delete_self (cache : Cache) (key : String) :
    (cache.delete key).get key = none := by
  induction cache with
  | nil => rfl
  | cons p rest ih =>
    obtain ⟨k, e⟩ := p
    by_cases hk : k = key
    · simpa [Cache.delete, List.filter_cons, hk] using ih
    · simpa [Cache.delete, List.filter_cons, hk, Cache.get] using ih

theorem Cache.get_delete_of_ne (cache : Cache) (key k : String) (h : k ≠ key) :
    (cache.delete key).get k = cache.get k := by
  induction cache with
  | nil => rfl
  | cons p rest ih =>
    obtain ⟨k0, e⟩ := p
    by_cases hk : k0 = key
    · subst hk
      have hne : ¬ k0 = k := fun h0 => h h0.symm
      simpa [Cache.delete, List.filter_cons, Cache.get, hne] using ih
    · by_cases hk2 : k0 = k
      · subst hk2
        simp [Cache.delete, List.filter_cons, hk, Cache.get]
      · simpa [Cache.delete, List.filter_cons, hk, Cache.get, hk2] using ih

theorem Cache.get_eq_none_of_not_mem_keys (cache : Cache) (key : String)
    (h : key ∉ cache.keys) : cache.get key = none := by
  induction cache with
  | nil => rfl
  | cons p rest ih =>
    obtain ⟨k, e⟩ := p
    simp only [Cache.keys, List.map_cons, List.mem_cons, not_or] at h
    have hne : ¬ k = key := fun h0 => h.1 h0.symm
    simpa [Cache.get, hne] using ih h.2

theorem Cache.mem_of_get (cache : Cache) (key : String) (e : CacheEntry)
    (h : cache.get key = some e) : (key, e) ∈ cache := by
  induction cache with
  | nil => simp [Cache.get] at h
  | cons p rest ih =>
    obtain ⟨k, e0⟩ := p
    by_cases hk : k = key
    · simp only [Cache.get, hk, if_true, Option.some.injEq] at h
      simp [hk, h]
    · simp only [Cache.get, hk, if_false] at h
      exact List.mem_cons_of_mem _ (ih h)

theorem Cache.get_set_self (cache : Cache) (key : String) (e : CacheEntry) :
    (cache.set key e).get key = some e := by
  induction cache with
  | nil => simp [Cache.set, Cache.get]
  | cons p rest ih =>
    obtain ⟨k, e0⟩ := p
    by_cases hk : k = key
    · simp [Cache.set, Cache.get, hk]
    · simpa [Cache.set, Cache.get, hk] using ih

theorem Cache.get_set_of_ne (cache : Cache) (key k : String) (e : CacheEntry) (h : k ≠ key) :
    (cache.set key e).get k = cache.get k := by
  induction cache with
  | nil =>
    have hne : ¬ key = k := fun h0 => h h0.symm
    simp [Cache.set, Cache.get, hne]
  | cons p rest ih =>
    obtain ⟨k0, e0⟩ := p
    by_cases hk : k0 = key
    · have hne : ¬ key = k := fun h0 => h h0.symm
      simp [Cache.set, Cache.get, hk, hne]
    · by_cases hk2 : k0 = k
      · subst hk2
        simp [Cache.set, Cache.get, hk]
      · simpa [Cache.set, Cache.get, hk, hk2] using ih

theorem Cache.get_filter_of_keep (cache : Cache) (keep : String → Bool) (k : String)
    (h : keep k = true) : Cache.get (cache.filter (fun p => keep p.1)) k = Cache.get cache k := by
  induction cache with
  | nil => rfl
  | cons p rest ih =>
    obtain ⟨k0, e⟩ := p
    by_cases hk : k0 = k
    · subst hk
      simp [List.filter_cons, h, Cache.get]
    · by_cases hkeep : keep k0 = true
      · simpa [List.filter_cons, hkeep, Cache.get, hk] using ih
      · simpa [List.filter_cons, hkeep, Cache.get, hk] using ih

/-- The key walk of `invalidateCache` over any list of keys is one filter. -/
theorem invalidate_foldl_eq_filter (pattern : String) (ks : List String) (cache : Cache) :
    ks.foldl (fun (cache : Cache) key =>
        if includes key pattern then cache.delete key else cache) cache
      = cache.filter (fun p => !(includes p.1 pattern && decide (p.1 ∈ ks))) := by
  induction ks generalizing cache with
  | nil => simp
  | cons k rest ih =>
    rw [List.foldl_cons, ih]
    by_cases hk : includes k pattern = true
    · simp only [hk, if_true, Cache.delete, List.filter_filter]
      apply List.filter_congr
      intro p _
      by_cases hp : p.1 = k
      · simp [hp, hk]
      · simp [hp]
    · simp only [hk, if_false]
      apply List.filter_congr
      intro p _
      by_cases hp : p.1 = k
      · have hk2 : includes k pattern = false := by simpa using hk
        simp [hp, hk2]
      · simp [hp]

/-- What `invalidateCache` leaves: the entries whose key does not include the pattern. -/
theorem invalidateCache_cache_eq_filter (c : APIClient) (pattern : String) :
    (invalidateCache c pattern).cache = c.cache.filter (fun p => !includes p.1 pattern) := by
  simp only [invalidateCache]
  rw [invalidate_foldl_eq_filter]
  apply List.filter_congr
  intro p hp
  have hmem : p.1 ∈ c.cache.keys := List.mem_map_of_mem Prod.fst hp
  simp [hmem]

/-! ## Facts about the transport and the retry loop -/

theorem AlwaysTimesOut.alwaysFails {rt : Runtime} (h : AlwaysTimesOut rt) : AlwaysFails rt := by
  intro i url options
  obtain ⟨e, he, _⟩ := h i url options
  exact ⟨e, he⟩

theorem fetchWithTimeout_env (rt : Runtime) (c : APIClient) (url : String)
    (options : RequestOptions) (env : Env) :
    (fetchWithTimeout rt c url options env).2 =
      { env with
        fetchCalls := env.fetchCalls + 1
        now := env.now + rt.latency env.fetchCalls } := by
  unfold fetchWithTimeout
  split
  · rfl
  · split <;> rfl

/-- The outcome of one attempt depends on the world only through the call number
and on the client only through `timeout`. -/
theorem fetchWithTimeout_fst_congr (rt : Runtime) (c c' : APIClient) (url : String)
    (options : RequestOptions) (env env' : Env) (hc : env.fetchCalls = env'.fetchCalls)
    (ht : c.timeout = c'.timeout) :
    (fetchWithTimeout rt c url options env).1 = (fetchWithTimeout rt c' url options env').1 := by
  unfold fetchWithTimeout
  rw [hc, ht]
  split
  · rfl
  · split <;> rfl

theorem fetchWithTimeout_resolved (rt : Runtime) (c : APIClient) (url : String)
    (options : RequestOptions) (env : Env) (r : Response)
    (h : rt.fetch env.fetchCalls url options = .resolved r) :
    (fetchWithTimeout rt c url options env).1 = .ok r := by
  unfold fetchWithTimeout
  rw [h]

theorem fetchWithTimeout_rejected (rt : Runtime) (c : APIClient) (url : String)
    (options : RequestOptions) (env : Env) (e : JSError)
    (h : rt.fetch env.fetchCalls url options = .rejected e) :
    ∃ err, (fetchWithTimeout rt c url options env).1 = .error err := by
  unfold fetchWithTimeout
  rw [h]
  by_cases hn : e.name = "AbortError"
  · exact ⟨JSError.mkError ("Request timeout after " ++ toString c.timeout ++ "ms"), by simp [hn]⟩
  · exact ⟨e, by simp [hn]⟩

theorem fetchWithTimeout_aborted (rt : Runtime) (c : APIClient) (url : String)
    (options : RequestOptions) (env : Env) (e : JSError)
    (h : rt.fetch env.fetchCalls url options = .rejected e) (hn : e.name = "AbortError") :
    (fetchWithTimeout rt c url options env).1 =
      .error (JSError.mkError ("Request timeout after " ++ toString c.timeout ++ "ms")) := by
  unfold fetchWithTimeout
  rw [h]
  simp [hn]

/-- One unfolding of the retry loop when the attempt resolves. -/
theorem requestWithRetry_of_ok (rt : Runtime) (c : APIClient) (url : String)
    (options : RequestOptions) (retries : Nat) (env : Env) (r : Response)
    (h : (fetchWithTimeout rt c url options env).1 = .ok r) :
    requestWithRetry rt c url options retries env
      = (.ok r, (fetchWithTimeout rt c url options env).2) := by
  rw [requestWithRetry]
  generalize fetchWithTimeout rt c url options env = res at h
  obtain ⟨x, env1⟩ := res
  simp only at h
  subst h
  rfl

/-- One unfolding of the retry loop when the attempt fails. -/
theorem requestWithRetry_of_error (rt : Runtime) (c : APIClient) (url : String)
    (options : RequestOptions) (retries : Nat) (env : Env) (err : JSError)
    (h : (fetchWithTimeout rt c url options env).1 = .error err) :
    requestWithRetry rt c url options retries env
      = if retries < c.maxRetries then
          requestWithRetry rt c url options (retries + 1)
            (sleep (1000 * (retries + 1)) (fetchWithTimeout rt c url options env).2)
        else (.error err, (fetchWithTimeout rt c url options env).2) := by
  rw [requestWithRetry]
  generalize fetchWithTimeout rt c url options env = res at h
  obtain ⟨x, env1⟩ := res
  simp only at h
  subst h
  rfl

/-- With a transport that always fails, a loop entered with `k` retries left makes
`k + 1` attempts and surfaces the failure of the last one as it is. -/
theorem requestWithRetry_all_fail (rt : Runtime) (c : APIClient) (url : String)
    (options : RequestOptions) (hfail : AlwaysFails rt) :
    ∀ (k retries : Nat) (env : Env), c.maxRetries - retries = k →
      (requestWithRetry rt c url options retries env).2.fetchCalls = env.fetchCalls + k + 1 ∧
      (requestWithRetry rt c url options retries env).1 =
        (fetchWithTimeout rt c url options { env with fetchCalls := env.fetchCalls + k }).1 := by
  intro k
  induction k with
  | zero =>
    intro retries env hk
    obtain ⟨e, he⟩ := hfail env.fetchCalls url options
    obtain ⟨err, herr⟩ := fetchWithTimeout_rejected rt c url options env e he
    have hlt : ¬ retries < c.maxRetries := by omega
    rw [requestWithRetry_of_error rt c url options retries env err herr, if_neg hlt]
    refine ⟨by simp [fetchWithTimeout_env], ?_⟩
    rw [← herr]
    exact fetchWithTimeout_fst_congr rt c c url options _ _ (by simp) rfl
  | succ k ih =>
    intro retries env hk
    obtain ⟨e, he⟩ := hfail env.fetchCalls url options
    obtain ⟨err, herr⟩ := fetchWithTimeout_rejected rt c url options env e he
    have hlt : retries < c.maxRetries := by omega
    rw [requestWithRetry_of_error rt c url options retries env err herr, if_pos hlt]
    obtain ⟨h1, h2⟩ := ih (retries + 1)
      (sleep (1000 * (retries + 1)) (fetchWithTimeout rt c url options env).2) (by omega)
    refine ⟨?_, ?_⟩
    · rw [h1]
      simp [sleep, fetchWithTimeout_env]
      omega
    · rw [h2]
      apply fetchWithTimeout_fst_congr rt c c url options _ _ _ rfl
      simp [sleep, fetchWithTimeout_env]
      omega

/-- The retry loop reads the client only through `maxRetries` and `timeout`. -/
theorem requestWithRetry_congr (rt : Runtime) (c c' : APIClient) (url : String)
    (options : RequestOptions) (hm : c.maxRetries = c'.maxRetries) (ht : c.timeout = c'.timeout) :
    ∀ (k retries : Nat) (env : Env), c.maxRetries - retries = k →
      requestWithRetry rt c url options retries env
        = requestWithRetry rt c' url options retries env := by
  have henv : ∀ env, (fetchWithTimeout rt c url options env).2
      = (fetchWithTimeout rt c' url options env).2 := by
    intro env
    rw [fetchWithTimeout_env, fetchWithTimeout_env]
  intro k
  induction k with
  | zero =>
    intro retries env hk
    have hfst := fetchWithTimeout_fst_congr rt c c' url options env env rfl ht
    cases hres : (fetchWithTimeout rt c url options env).1 with
    | ok r =>
      rw [requestWithRetry_of_ok rt c url options retries env r hres,
        requestWithRetry_of_ok rt c' url options retries env r (hfst ▸ hres), henv]
    | error err =>
      have hlt : ¬ retries < c.maxRetries := by omega
      have hlt2 : ¬ retries < c'.maxRetries := by omega
      rw [requestWithRetry_of_error rt c url options retries env err hres,
        requestWithRetry_of_error rt c' url options retries env err (hfst ▸ hres),
        if_neg hlt, if_neg hlt2, henv]
  | succ k ih =>
    intro retries env hk
    have hfst := fetchWithTimeout_fst_congr rt c c' url options env env rfl ht
    cases hres : (fetchWithTimeout rt c url options env).1 with
    | ok r =>
      rw [requestWithRetry_of_ok rt c url options retries env r hres,
        requestWithRetry_of_ok rt c' url options retries env r (hfst ▸ hres), henv]
    | error err =>
      have hlt : retries < c.maxRetries := by omega
      have hlt2 : retries < c'.maxRetries := by omega
      rw [requestWithRetry_of_error rt c url options retries env err hres,
        requestWithRetry_of_error rt c' url options retries env err (hfst ▸ hres),
        if_pos hlt, if_pos hlt2, henv]
      exact ih (retries + 1) _ (by omega)

/-! ## Facts about the request pipeline -/

/-- The lookup changes nothing of the client but the cache. -/
theorem getFromCache_snd_eq (c : APIClient) (key : String) (now : Int) :
    (getFromCache c key now).2 = { c with cache := (getFromCache c key now).2.cache } := by
  unfold getFromCache
  split
  · rfl
  · split
    · rfl
    · split <;> rfl

/-- The live pipeline when a request interceptor throws. -/
theorem requestLive_of_requestInterceptor_error (rt : Runtime) (c : APIClient) (X : Cache)
    (endpoint : String) (options : RequestOptions) (env env1 : Env) (e : JSError)
    (h1 : applyRequestInterceptors c (c.baseURL ++ endpoint) options env = (.error e, env1)) :
    requestLive rt { c with cache := X } endpoint options env
      = (.error e, { c with cache := X }, env1) := by
  have h1x : applyRequestInterceptors { c with cache := X } (c.baseURL ++ endpoint) options env
      = (.error e, env1) := h1
  simp only [requestLive, h1x]

/-- The live pipeline when every attempt of the transport fails. -/
theorem requestLive_of_transport_error (rt : Runtime) (c : APIClient) (X : Cache)
    (endpoint : String) (options modifiedOptions : RequestOptions) (env env1 env2 : Env)
    (e : JSError)
    (h1 : applyRequestInterceptors c (c.baseURL ++ endpoint) options env
      = (.ok modifiedOptions, env1))
    (h2 : requestWithRetry rt c (c.baseURL ++ endpoint) modifiedOptions 0 env1 = (.error e, env2)) :
    requestLive rt { c with cache := X } endpoint options env
      = (.error e, { c with cache := X }, env2) := by
  have h1x : applyRequestInterceptors { c with cache := X } (c.baseURL ++ endpoint) options env
      = (.ok modifiedOptions, env1) := h1
  have h2x : requestWithRetry rt { c with cache := X } (c.baseURL ++ endpoint) modifiedOptions 0
      env1 = (.error e, env2) := by
    rw [← h2]
    exact (requestWithRetry_congr rt c { c with cache := X } _ _ rfl rfl _ 0 env1 rfl).symm
  simp only [requestLive, h1x, h2x]

/-- The live pipeline when the transport completes with a non-success status. -/
theorem requestLive_of_status_error (rt : Runtime) (c : APIClient) (X : Cache)
    (endpoint : String) (options modifiedOptions : RequestOptions) (env env1 env2 : Env)
    (response : Response)
    (h1 : applyRequestInterceptors c (c.baseURL ++ endpoint) options env
      = (.ok modifiedOptions, env1))
    (h2 : requestWithRetry rt c (c.baseURL ++ endpoint) modifiedOptions 0 env1
      = (.ok response, env2))
    (h3 : response.ok = false) :
    requestLive rt { c with cache := X } endpoint options env
      = (.error (JSError.mkError ("HTTP Error: " ++ toString response.status)),
          { c with cache := X }, env2) := by
  have h1x : applyRequestInterceptors { c with cache := X } (c.baseURL ++ endpoint) options env
      = (.ok modifiedOptions, env1) := h1
  have h2x : requestWithRetry rt { c with cache := X } (c.baseURL ++ endpoint) modifiedOptions 0
      env1 = (.ok response, env2) := by
    rw [← h2]
    exact (requestWithRetry_congr rt c { c with cache := X } _ _ rfl rfl _ 0 env1 rfl).symm
  simp only [requestLive, h1x, h2x, h3]
  rfl

/-- The live pipeline when every stage succeeds. -/
theorem requestLive_of_success (rt : Runtime) (c : APIClient) (X : Cache)
    (endpoint : String) (options modifiedOptions : RequestOptions) (env env1 env2 env3 : Env)
    (response : Response) (decoded data : JSValue)
    (h1 : applyRequestInterceptors c (c.baseURL ++ endpoint) options env
      = (.ok modifiedOptions, env1))
    (h2 : requestWithRetry rt c (c.baseURL ++ endpoint) modifiedOptions 0 env1
      = (.ok response, env2))
    (h3 : response.ok = true)
    (h4 : response.json = .ok decoded)
    (h5 : applyResponseInterceptors c response decoded env2 = (.ok data, env3)) :
    requestLive rt { c with cache := X } endpoint options env
      = (.ok (withFromCache data false),
          cacheUpdate { c with cache := X } endpoint options data env3.now, env3) := by
  have h1x : applyRequestInterceptors { c with cache := X } (c.baseURL ++ endpoint) options env
      = (.ok modifiedOptions, env1) := h1
  have h2x : requestWithRetry rt { c with cache := X } (c.baseURL ++ endpoint) modifiedOptions 0
      env1 = (.ok response, env2) := by
    rw [← h2]
    exact (requestWithRetry_congr rt c { c with cache := X } _ _ rfl rfl _ 0 env1 rfl).symm
  have h5x : applyResponseInterceptors { c with cache := X } response decoded env2
      = (.ok data, env3) := h5
  simp only [requestLive, h1x, h2x, h3, h4, h5x]
  rfl

/-- A live pipeline that returns has stored or invalidated as `cacheUpdate` says, and
one that throws has left the client as it was. -/
theorem requestLive_result (rt : Runtime) (c : APIClient) (endpoint : String)
    (options : RequestOptions) (env : Env) :
    (∃ data, requestLive rt c endpoint options env
        = (.ok (withFromCache data false),
            cacheUpdate c endpoint options data (requestLive rt c endpoint options env).2.2.now,
            (requestLive rt c endpoint options env).2.2)) ∨
    (∃ e, requestLive rt c endpoint options env
        = (.error e, c, (requestLive rt c endpoint options env).2.2)) := by
  rcases h1 : applyRequestInterceptors c (c.baseURL ++ endpoint) options env with ⟨r1, env1⟩
  cases r1 with
  | error e =>
    right
    exact ⟨e, by rw [requestLive_of_requestInterceptor_error rt c c.cache endpoint options env env1 e h1]⟩
  | ok modifiedOptions =>
    rcases h2 : requestWithRetry rt c (c.baseURL ++ endpoint) modifiedOptions 0 env1
      with ⟨r2, env2⟩
    cases r2 with
    | error e =>
      right
      exact ⟨e, by rw [requestLive_of_transport_error rt c c.cache endpoint options _ env env1 env2 e h1 h2]⟩
    | ok response =>
      cases h3 : response.ok with
      | false =>
        right
        exact ⟨_, by rw [requestLive_of_status_error rt c c.cache endpoint options _ env env1 env2 response h1 h2 h3]⟩
      | true =>
        cases h4 : response.json with
        | error e =>
          right
          refine ⟨e, ?_⟩
          simp only [requestLive, h1, h2, h3, h4]
          rfl
        | ok decoded =>
          rcases h5 : applyResponseInterceptors c response decoded env2 with ⟨r5, env3⟩
          cases r5 with
          | error e =>
            right
            refine ⟨e, ?_⟩
            simp only [requestLive, h1, h2, h3, h4, h5]
            rfl
          | ok data =>
            left
            exact ⟨data, by rw [requestLive_of_success rt c c.cache endpoint options _ env env1 env2 env3 response decoded data h1 h2 h3 h4 h5]⟩

/-- The client after the cache check is the client with, at most, another cache. -/
theorem afterLookup_eq (c : APIClient) (endpoint : String) (options : RequestOptions)
    (now : Int) :
    afterLookup c endpoint options now
      = { c with cache := (afterLookup c endpoint options now).cache } := by
  unfold afterLookup
  split
  · exact getFromCache_snd_eq c _ now
  · rfl

/-- Without a cache hit, `request` is the live pipeline run on the client the cache
check left. -/
theorem request_of_miss (rt : Runtime) (c : APIClient) (endpoint : String)
    (options : RequestOptions) (env : Env) (hmiss : cacheHit c endpoint options env.now = false) :
    request rt c endpoint options env
      = requestLive rt (afterLookup c endpoint options env.now) endpoint options env := by
  unfold request afterLookup
  by_cases hget : options.methodOrGet = "GET" ∧ options.forceRefresh = false
  · have htruthy : (getFromCache c (getCacheKey (c.baseURL ++ endpoint) options) env.now).1.truthy
        = false := by
      simpa [cacheHit, hget] using hmiss
    simp only [hget, and_self, if_true, htruthy]
    rfl
  · simp only [hget, if_false]

/-- With a cache hit, `request` returns the cached data marked `fromCache: true` and
touches neither the world nor the cache. -/
theorem request_of_hit (rt : Runtime) (c : APIClient) (endpoint : String)
    (options : RequestOptions) (env : Env) (hhit : cacheHit c endpoint options env.now = true) :
    request rt c endpoint options env
      = (.ok (withFromCache
            (getFromCache c (getCacheKey (c.baseURL ++ endpoint) options) env.now).1 true),
          (getFromCache c (getCacheKey (c.baseURL ++ endpoint) options) env.now).2, env) := by
  unfold request
  simp only [cacheHit, Bool.and_eq_true, decide_eq_true_eq] at hhit
  obtain ⟨hget, htruthy⟩ := hhit
  simp only [hget, and_self, if_true, htruthy]

/-! ## Cache lookup (C4) and invalidation (C8) -/

/-- C4: with caching enabled, `getFromCache(key)` at time `now` returns the data of
a present entry whose age `now - timestamp` is at most `cacheTTL` (boundary
included) and leaves the client unchanged; for a present entry older than
`cacheTTL` it returns `null` and deletes exactly that key, every other entry
staying as it was; for an absent key it returns `null` and changes nothing. -/
theorem getFromCache_contract (c : APIClient) (key : String) (now : Int)
    (henabled : c.enableCache = true) :
    (∀ entry, c.cache.get key = some entry → now - entry.timestamp ≤ c.cacheTTL →
      getFromCache c key now = (entry.data, c)) ∧
    (∀ entry, c.cache.get key = some entry → now - entry.timestamp > c.cacheTTL →
      (getFromCache c key now).1 = .null ∧
      (getFromCache c key now).2 = { c with cache := c.cache.delete key } ∧
      (getFromCache c key now).2.cache.get key = none ∧
      (∀ p, p ∈ (getFromCache c key now).2.cache ↔ p ∈ c.cache ∧ p.1 ≠ key) ∧
      (∀ k, k ≠ key → (getFromCache c key now).2.cache.get k = c.cache.get k)) ∧
    (c.cache.get key = none → getFromCache c key now = (.null, c)) := by
  refine ⟨?_, ?_, ?_⟩
  · intro entry hget hlive
    have hnot : ¬ now - entry.timestamp > c.cacheTTL := by omega
    simp [getFromCache, henabled, hget, hnot]
  · intro entry hget hexpired
    have hres : getFromCache c key now = (.null, { c with cache := c.cache.delete key }) := by
      simp [getFromCache, henabled, hget, hexpired]
    rw [hres]
    refine ⟨rfl, rfl, ?_, ?_, ?_⟩
    · exact Cache.get_delete_self c.cache key
    · intro p
      exact Cache.mem_delete c.cache key p
    · intro k hk
      exact Cache.get_delete_of_ne c.cache key k hk
  · intro hget
    simp [getFromCache, henabled, hget]

/-- C4 at a sample client: the entry captured at 1000 is returned at 61000, the last
instant of its 60000 ms life, and the client is unchanged. -/
theorem getFromCache_contract_witness :
    getFromCache clientWithPosts "GET:https://api.example.com/posts" 61000
      = (.arr [sampleUser], clientWithPosts) :=
  (getFromCache_contract clientWithPosts "GET:https://api.example.com/posts" 61000 rfl).1
    { data := .arr [sampleUser], timestamp := 1000 } rfl (by decide)

/-- C8: `invalidateCache(pattern)` removes exactly the entries whose key includes the
pattern: no remaining key includes it, every entry whose key does not include it
is still there with the same data and timestamp, and nothing is added. -/
theorem invalidateCache_removes_exactly (c : APIClient) (pattern : String) :
    (∀ k ∈ (invalidateCache c pattern).cache.keys, includes k pattern = false) ∧
    (∀ p ∈ c.cache, includes p.1 pattern = false → p ∈ (invalidateCache c pattern).cache) ∧
    (∀ p ∈ (invalidateCache c pattern).cache, p ∈ c.cache) ∧
    (∀ k, includes k pattern = false →
      (invalidateCache c pattern).cache.get k = c.cache.get k) ∧
    (invalidateCache c pattern).cache = c.cache.filter (fun p => !includes p.1 pattern) := by
  have hfilter := invalidateCache_cache_eq_filter c pattern
  refine ⟨?_, ?_, ?_, ?_, hfilter⟩
  · intro k hk
    rw [hfilter] at hk
    simp only [Cache.keys, List.mem_map, List.mem_filter] at hk
    obtain ⟨p, ⟨_, hp⟩, rfl⟩ := hk
    simpa using hp
  · intro p hp hnot
    rw [hfilter]
    simp [List.mem_filter, hp, hnot]
  · intro p hp
    rw [hfilter] at hp
    exact (List.mem_filter.mp hp).1
  · intro k hk
    rw [hfilter]
    exact Cache.get_filter_of_keep c.cache (fun key => !includes key pattern) k (by simp [hk])

/-! ## The retry bound (C2) and the failure after the last attempt (C6) -/

/-- The number of attempts against a transport that always fails is the stored
`maxRetries` plus one. -/
theorem requestWithRetry_attempts (rt : Runtime) (c : APIClient) (url : String)
    (options : RequestOptions) (env : Env) (hfail : AlwaysFails rt) :
    (requestWithRetry rt c url options 0 env).2.fetchCalls = env.fetchCalls + c.maxRetries + 1 :=
  (requestWithRetry_all_fail rt c url options hfail c.maxRetries 0 env rfl).1

/-- C2 at `maxRetries: 0`: the constructor stores 2, since `0 || 2` is 2, and against
a transport that fails on every call `requestWithRetry` then makes three
attempts before it fails, not one. -/
theorem zero_maxRetries_makes_three_attempts :
    (APIClient.new sampleBase { maxRetries := some 0 }).maxRetries = 2 ∧
    (requestWithRetry deadNetwork (APIClient.new sampleBase { maxRetries := some 0 })
      "https://api.example.com/users" {} 0 { now := 0 }).2.fetchCalls = 3 ∧
    (requestWithRetry deadNetwork (APIClient.new sampleBase { maxRetries := some 0 })
      "https://api.example.com/users" {} 0 { now := 0 }).1
      = .error (JSError.mkError "Request timeout after 10000ms") :=
  ⟨rfl, rfl, rfl⟩

/-- C6 as stated fails: with the default `maxRetries` of 2 and a transport that always
times out, the caller gets, after 3 attempts, the very value a single timed-out
transport call throws, an `Error` with the timeout message and no mark that
retries were exhausted. -/
theorem retry_failure_is_bare_timeout :
    (requestWithRetry deadNetwork (APIClient.new sampleBase)
      "https://api.example.com/users" {} 0 { now := 0 }).2.fetchCalls = 3 ∧
    ¬ ((requestWithRetry deadNetwork (APIClient.new sampleBase)
        "https://api.example.com/users" {} 0 { now := 0 }).1
      ≠ (fetchWithTimeout deadNetwork (APIClient.new sampleBase)
        "https://api.example.com/users" {} { now := 0 }).1) ∧
    (requestWithRetry deadNetwork (APIClient.new sampleBase)
      "https://api.example.com/users" {} 0 { now := 0 }).1
      = .error { name := "Error", message := "Request timeout after 10000ms" } :=
  ⟨rfl, fun h => h rfl, rfl⟩

/-- C6 amended: when every attempt fails, `requestWithRetry` makes `maxRetries + 1`
attempts and throws the failure of the last attempt as it is, not wrapped (for a
transport that always times out, the timeout error of `fetchWithTimeout`); and
`request`, once its request interceptors have run and the transport is reached,
throws that same value and leaves the cache as the cache check left it. -/
theorem retry_exhausted_surfaces_last_failure (rt : Runtime) (c : APIClient) (url : String)
    (options : RequestOptions) (env : Env) (hfail : AlwaysFails rt) :
    (requestWithRetry rt c url options 0 env).2.fetchCalls = env.fetchCalls + c.maxRetries + 1 ∧
    (requestWithRetry rt c url options 0 env).1
      = (fetchWithTimeout rt c url options
          { env with fetchCalls := env.fetchCalls + c.maxRetries }).1 ∧
    (∃ e, (requestWithRetry rt c url options 0 env).1 = .error e) ∧
    (AlwaysTimesOut rt →
      (requestWithRetry rt c url options 0 env).1
        = .error (JSError.mkError ("Request timeout after " ++ toString c.timeout ++ "ms"))) ∧
    (∀ endpoint given modifiedOptions env1, cacheHit c endpoint given env.now = false →
      applyRequestInterceptors c (c.baseURL ++ endpoint) given env
        = (.ok modifiedOptions, env1) →
      ∃ e, (fetchWithTimeout rt c (c.baseURL ++ endpoint) modifiedOptions
            { env1 with fetchCalls := env1.fetchCalls + c.maxRetries }).1 = .error e ∧
        (request rt c endpoint given env).1 = .error e ∧
        (request rt c endpoint given env).2.1 = afterLookup c endpoint given env.now) := by
  obtain ⟨hcalls, hlast⟩ := requestWithRetry_all_fail rt c url options hfail c.maxRetries 0 env rfl
  refine ⟨hcalls, hlast, ?_, ?_, ?_⟩
  · rw [hlast]
    obtain ⟨e, he⟩ := hfail (env.fetchCalls + c.maxRetries) url options
    exact fetchWithTimeout_rejected rt c url options _ e he
  · intro htimeout
    rw [hlast]
    obtain ⟨e, he, hname⟩ := htimeout (env.fetchCalls + c.maxRetries) url options
    exact fetchWithTimeout_aborted rt c url options _ e he hname
  · intro endpoint given modifiedOptions env1 hmiss h1
    have hlast1 :=
      (requestWithRetry_all_fail rt c (c.baseURL ++ endpoint) modifiedOptions hfail
        c.maxRetries 0 env1 rfl).2
    obtain ⟨e0, he0⟩ := hfail (env1.fetchCalls + c.maxRetries) (c.baseURL ++ endpoint)
      modifiedOptions
    obtain ⟨e, he⟩ := fetchWithTimeout_rejected rt c (c.baseURL ++ endpoint) modifiedOptions
      { env1 with fetchCalls := env1.fetchCalls + c.maxRetries } e0 he0
    have h2 : requestWithRetry rt c (c.baseURL ++ endpoint) modifiedOptions 0 env1
        = (.error e, (requestWithRetry rt c (c.baseURL ++ endpoint) modifiedOptions 0 env1).2) := by
      rw [← he, ← hlast1]
    refine ⟨e, he, ?_⟩
    rw [request_of_miss rt c endpoint given env hmiss, afterLookup_eq c endpoint given env.now,
      requestLive_of_transport_error rt c _ endpoint given modifiedOptions env env1 _ e h1 h2]
    exact ⟨rfl, rfl⟩

/-- C6 amended, at the default client on a network where every call times out. -/
theorem retry_exhausted_surfaces_last_failure_witness :
    (requestWithRetry deadNetwork (APIClient.new sampleBase)
      "https://api.example.com/users" {} 0 { now := 0 }).2.fetchCalls = 3 :=
  (retry_exhausted_surfaces_last_failure deadNetwork (APIClient.new sampleBase)
    "https://api.example.com/users" {} { now := 0 }
    (fun _ _ _ => ⟨_, rfl⟩)).1

/-! ## The interceptor chains (C9, C10) -/

/-- The request loop computes the fold in which a silent interceptor leaves the
options as it left the object it was handed. -/
theorem applyRequestInterceptorsLoop_fst (url : String) (interceptors : List RequestInterceptor) :
    ∀ (options : RequestOptions) (env : Env),
      (applyRequestInterceptorsLoop url interceptors options env).1
        = requestPhaseFold url interceptors options := by
  induction interceptors with
  | nil => intro options env; rfl
  | cons f rest ih =>
    intro options env
    simp only [applyRequestInterceptorsLoop, requestPhaseFold, List.foldlM_cons]
    cases hf : f url options with
    | error e => rfl
    | ok out =>
      obtain ⟨written, returned⟩ := out
      cases returned with
      | none => exact ih written _
      | some r => exact ih r _

/-- The request interceptors do not touch the clock, the transport or the response
interceptors' count. -/
theorem applyRequestInterceptorsLoop_env (url : String) (interceptors : List RequestInterceptor) :
    ∀ (options : RequestOptions) (env : Env),
      (applyRequestInterceptorsLoop url interceptors options env).2.now = env.now ∧
      (applyRequestInterceptorsLoop url interceptors options env).2.fetchCalls = env.fetchCalls ∧
      (applyRequestInterceptorsLoop url interceptors options env).2.waits = env.waits ∧
      (applyRequestInterceptorsLoop url interceptors options env).2.responseInterceptorCalls
        = env.responseInterceptorCalls := by
  induction interceptors with
  | nil => intro options env; exact ⟨rfl, rfl, rfl, rfl⟩
  | cons f rest ih =>
    intro options env
    simp only [applyRequestInterceptorsLoop]
    cases hf : f url options with
    | error e => exact ⟨rfl, rfl, rfl, rfl⟩
    | ok out =>
      obtain ⟨written, returned⟩ := out
      cases returned with
      | none => exact ih written _
      | some r => exact ih r _

/-- The response loop computes the fold in which, on `undefined`, the data is the
value the interceptor was handed as the interceptor left it. -/
theorem applyResponseInterceptorsLoop_fst (response : Response)
    (interceptors : List ResponseInterceptor) :
    ∀ (data : JSValue) (env : Env),
      (applyResponseInterceptorsLoop response interceptors data env).1
        = responsePhaseFold response interceptors data := by
  induction interceptors with
  | nil => intro data env; rfl
  | cons f rest ih =>
    intro data env
    simp only [responsePhaseFold, List.foldlM_cons]
    cases hf : f response data with
    | error e => simp [applyResponseInterceptorsLoop, hf]; rfl
    | ok out =>
      obtain ⟨written, returned⟩ := out
      cases returned <;>
        simpa [applyResponseInterceptorsLoop, hf, replaceUnlessUndefined, responsePhaseFold]
          using ih _ _

/-- The response interceptors do not touch the clock, the transport or the request
interceptors' count. -/
theorem applyResponseInterceptorsLoop_env (response : Response)
    (interceptors : List ResponseInterceptor) :
    ∀ (data : JSValue) (env : Env),
      (applyResponseInterceptorsLoop response interceptors data env).2.now = env.now ∧
      (applyResponseInterceptorsLoop response interceptors data env).2.fetchCalls
        = env.fetchCalls ∧
      (applyResponseInterceptorsLoop response interceptors data env).2.waits = env.waits ∧
      (applyResponseInterceptorsLoop response interceptors data env).2.requestInterceptorCalls
        = env.requestInterceptorCalls := by
  induction interceptors with
  | nil => intro data env; exact ⟨rfl, rfl, rfl, rfl⟩
  | cons f rest ih =>
    intro data env
    cases hf : f response data with
    | error e => simp [applyResponseInterceptorsLoop, hf]
    | ok out =>
      obtain ⟨written, returned⟩ := out
      cases returned <;> simpa [applyResponseInterceptorsLoop, hf] using ih _ _

theorem requestPhaseFold_append (url : String) (pre post : List RequestInterceptor)
    (options acc : RequestOptions) (hpre : requestPhaseFold url pre options = .ok acc) :
    requestPhaseFold url (pre ++ post) options = requestPhaseFold url post acc := by
  unfold requestPhaseFold at *
  rw [List.foldlM_append, hpre]
  rfl

theorem responsePhaseFold_append (response : Response) (pre post : List ResponseInterceptor)
    (data acc : JSValue) (hpre : responsePhaseFold response pre data = .ok acc) :
    responsePhaseFold response (pre ++ post) data = responsePhaseFold response post acc := by
  unfold responsePhaseFold at *
  rw [List.foldlM_append, hpre]
  rfl

/-- For interceptors that do not write when they return nothing, the fold the loop
computes is the fold of the specification. -/
theorem requestPhaseFold_eq_spec (url : String) (interceptors : List RequestInterceptor)
    (hsilent : ∀ f ∈ interceptors, SilentWithoutWriting url f) :
    ∀ options, requestPhaseFold url interceptors options
      = requestPhaseSpec url interceptors options := by
  induction interceptors with
  | nil => intro options; rfl
  | cons f rest ih =>
    intro options
    have hrest := ih (fun g hg => hsilent g (List.mem_cons_of_mem _ hg))
    simp only [requestPhaseFold, requestPhaseSpec, List.foldlM_cons] at hrest ⊢
    cases hf : f url options with
    | error e => rfl
    | ok out =>
      obtain ⟨written, returned⟩ := out
      cases returned with
      | none =>
        have hw : written = options :=
          hsilent f (List.mem_cons_self _ _) options ⟨written, none⟩ hf rfl
        subst hw
        exact hrest written
      | some r => exact hrest r

/-- For interceptors that do not write when they return `undefined`, the fold the
loop computes is the fold of the specification. -/
theorem responsePhaseFold_eq_spec (response : Response)
    (interceptors : List ResponseInterceptor)
    (hsilent : ∀ f ∈ interceptors, UndefinedWithoutWriting response f) :
    ∀ data, responsePhaseFold response interceptors data
      = responsePhaseSpec response interceptors data := by
  induction interceptors with
  | nil => intro data; rfl
  | cons f rest ih =>
    intro data
    have hrest := ih (fun g hg => hsilent g (List.mem_cons_of_mem _ hg))
    simp only [responsePhaseFold, responsePhaseSpec, List.foldlM_cons] at hrest ⊢
    cases hf : f response data with
    | error e => rfl
    | ok out =>
      obtain ⟨written, returned⟩ := out
      have hstep : replaceUnlessUndefined written returned
          = replaceUnlessUndefined data returned := by
        cases returned <;> first
          | rfl
          | exact hsilent f (List.mem_cons_self _ _) data ⟨written, .undefined⟩ hf rfl
      simp only [Except.map, bind, Except.bind, hstep]
      exact hrest _

/-- C9 as stated fails: a request interceptor that sets a header on the options
object it is handed and returns nothing does not leave the accumulated options
unchanged.  The loop keeps the object it handed over, so the result carries the
header, and is not the fold in which a silent interceptor changes nothing. -/
theorem silent_writer_changes_the_options :
    (silentWriter "X-A" "1" "https://api.example.com/users" {}).map (fun out => out.returned)
      = .ok none ∧
    (applyRequestInterceptors
      (addRequestInterceptor (APIClient.new sampleBase) (silentWriter "X-A" "1"))
      "https://api.example.com/users" {} { now := 0 }).1
      = .ok { headers := [("X-A", "1")] } ∧
    ¬ ((applyRequestInterceptors
        (addRequestInterceptor (APIClient.new sampleBase) (silentWriter "X-A" "1"))
        "https://api.example.com/users" {} { now := 0 }).1 = .ok {}) ∧
    ¬ ((applyRequestInterceptors
        (addRequestInterceptor (APIClient.new sampleBase) (silentWriter "X-A" "1"))
        "https://api.example.com/users" {} { now := 0 }).1
      = requestPhaseSpec "https://api.example.com/users" [silentWriter "X-A" "1"] {}) := by
  refine ⟨rfl, rfl, ?_, ?_⟩
  · intro h
    have h2 := Except.ok.inj h
    exact absurd (congrArg RequestOptions.headers h2) (by decide)
  · intro h
    have h2 := Except.ok.inj h
    exact absurd (congrArg RequestOptions.headers h2) (by decide)

/-- C9 amended: `applyRequestInterceptors(url, options)` is the left fold of the
registered request interceptors, in registration order, over a copy of the
options: registering appends at the end; each interceptor is called with the
value accumulated by those before it (with A before B, B receives A's output);
after one that returns nothing the accumulated options are the object it was
handed as it left it, so unchanged when it did not write to it; with none
registered the result is the options given.  For interceptors that never write
without returning, this is the fold in which one that returns nothing changes
nothing. -/
theorem applyRequestInterceptors_is_ordered_fold (c : APIClient) (url : String)
    (options : RequestOptions) (env : Env) :
    (applyRequestInterceptors c url options env).1
      = requestPhaseFold url c.requestInterceptors options ∧
    ((∀ f ∈ c.requestInterceptors, SilentWithoutWriting url f) →
      (applyRequestInterceptors c url options env).1
        = requestPhaseSpec url c.requestInterceptors options) ∧
    (∀ f, (addRequestInterceptor c f).requestInterceptors = c.requestInterceptors ++ [f]) ∧
    (∀ pre f post acc, c.requestInterceptors = pre ++ f :: post →
      requestPhaseFold url pre options = .ok acc →
      (applyRequestInterceptors c url options env).1
        = (match f url acc with
          | .error e => .error e
          | .ok ⟨_, some result⟩ => requestPhaseFold url post result
          | .ok ⟨written, none⟩ => requestPhaseFold url post written)) ∧
    (∀ A B outA a, c.requestInterceptors = [A, B] → A url options = .ok outA →
      outA.returned = some a →
      (applyRequestInterceptors c url options env).1
        = (B url a).map (fun out => out.returned.getD out.written)) ∧
    (∀ f out, c.requestInterceptors = [f] → f url options = .ok out → out.returned = none →
      (applyRequestInterceptors c url options env).1 = .ok out.written ∧
      (out.written = options → (applyRequestInterceptors c url options env).1 = .ok options)) ∧
    (c.requestInterceptors = [] → applyRequestInterceptors c url options env = (.ok options, env)) := by
  have hfold : (applyRequestInterceptors c url options env).1
      = requestPhaseFold url c.requestInterceptors options :=
    applyRequestInterceptorsLoop_fst url c.requestInterceptors options env
  refine ⟨hfold, ?_, fun f => rfl, ?_, ?_, ?_, ?_⟩
  · intro hsilent
    rw [hfold]
    exact requestPhaseFold_eq_spec url c.requestInterceptors hsilent options
  · intro pre f post acc hlist hpre
    rw [hfold, hlist, requestPhaseFold_append url pre (f :: post) options acc hpre]
    simp only [requestPhaseFold, List.foldlM_cons]
    cases hf : f url acc with
    | error e => rfl
    | ok out =>
      obtain ⟨written, returned⟩ := out
      cases returned <;> rfl
  · intro A B outA a hlist hA hret
    obtain ⟨writtenA, returnedA⟩ := outA
    simp only at hret
    subst hret
    rw [hfold, hlist]
    simp only [requestPhaseFold, List.foldlM_cons, List.foldlM_nil, hA, Except.map, bind,
      Except.bind, Option.getD]
    cases B url a <;> rfl
  · intro f out hlist hf hret
    obtain ⟨written, returned⟩ := out
    simp only at hret
    subst hret
    have hres : (applyRequestInterceptors c url options env).1 = .ok written := by
      rw [hfold, hlist]
      simp only [requestPhaseFold, List.foldlM_cons, List.foldlM_nil, hf]
      rfl
    exact ⟨hres, fun hw => by rw [hres]; exact congrArg Except.ok hw⟩
  · intro hlist
    simp only [applyRequestInterceptors, hlist, applyRequestInterceptorsLoop]

/-- C9 amended, on a client where an interceptor that sets `X-A` and returns the
options was registered before a silent one, one that sets `X-B` and returns
nothing, and one that sets `X-C` and returns the options: each receives what
the ones before it left, and the result carries the three headers in order. -/
theorem applyRequestInterceptors_is_ordered_fold_witness :
    (applyRequestInterceptors
      (addRequestInterceptor (addRequestInterceptor (addRequestInterceptor
        (addRequestInterceptor (APIClient.new sampleBase) (stampHeader "X-A" "1"))
        silentInterceptor) (silentWriter "X-B" "2")) (stampHeader "X-C" "3"))
      "https://api.example.com/users" {} { now := 0 }).1
      = .ok { headers := [("X-A", "1"), ("X-B", "2"), ("X-C", "3")] } :=
  ((applyRequestInterceptors_is_ordered_fold _ _ _ _).1).trans rfl

/-- C10: `applyResponseInterceptors(response, data)` is the left fold of the
registered response interceptors, in registration order, in which every value
an interceptor returns other than `undefined` replaces the accumulated data, the
falsy ones `0`, `false`, `null` and the empty string included, and only on
`undefined` the variable keeps the value the interceptor was handed (as the
interceptor left it: the data as it was when the interceptor wrote nothing); so
with two interceptors the second's output is the final data unless it is
`undefined`. -/
theorem applyResponseInterceptors_replaces_unless_undefined (c : APIClient)
    (response : Response) (data : JSValue) (env : Env) :
    (applyResponseInterceptors c response data env).1
      = responsePhaseFold response c.responseInterceptors data ∧
    ((∀ f ∈ c.responseInterceptors, UndefinedWithoutWriting response f) →
      (applyResponseInterceptors c response data env).1
        = responsePhaseSpec response c.responseInterceptors data) ∧
    (∀ f, (addResponseInterceptor c f).responseInterceptors = c.responseInterceptors ++ [f]) ∧
    (∀ pre f post acc, c.responseInterceptors = pre ++ f :: post →
      responsePhaseFold response pre data = .ok acc →
      (applyResponseInterceptors c response data env).1
        = (match f response acc with
          | .error e => .error e
          | .ok out =>
            responsePhaseFold response post (replaceUnlessUndefined out.written out.returned))) ∧
    (∀ written v, v ≠ .undefined → replaceUnlessUndefined written v = v) ∧
    (∀ written, replaceUnlessUndefined written (.num 0) = .num 0 ∧
      replaceUnlessUndefined written (.bool false) = .bool false ∧
      replaceUnlessUndefined written .null = .null ∧
      replaceUnlessUndefined written (.str "") = .str "") ∧
    (∀ written, replaceUnlessUndefined written .undefined = written) ∧
    (∀ f out, c.responseInterceptors = [f] → f response data = .ok out →
      (out.returned ≠ .undefined →
        (applyResponseInterceptors c response data env).1 = .ok out.returned) ∧
      (out.returned = .undefined →
        (applyResponseInterceptors c response data env).1 = .ok out.written)) ∧
    (∀ A B outA outB, c.responseInterceptors = [A, B] → A response data = .ok outA →
      B response (replaceUnlessUndefined outA.written outA.returned) = .ok outB →
      (applyResponseInterceptors c response data env).1
        = .ok (replaceUnlessUndefined outB.written outB.returned) ∧
      (outB.returned ≠ .undefined →
        (applyResponseInterceptors c response data env).1 = .ok outB.returned)) := by
  have hfold : (applyResponseInterceptors c response data env).1
      = responsePhaseFold response c.responseInterceptors data :=
    applyResponseInterceptorsLoop_fst response c.responseInterceptors data env
  have hreplace : ∀ written v, v ≠ JSValue.undefined → replaceUnlessUndefined written v = v := by
    intro written v hv
    cases v <;> first | rfl | exact absurd rfl hv
  refine ⟨hfold, ?_, fun f => rfl, ?_, hreplace, fun w => ⟨rfl, rfl, rfl, rfl⟩, fun w => rfl,
    ?_, ?_⟩
  · intro hsilent
    rw [hfold]
    exact responsePhaseFold_eq_spec response c.responseInterceptors hsilent data
  · intro pre f post acc hlist hpre
    rw [hfold, hlist, responsePhaseFold_append response pre (f :: post) data acc hpre]
    simp only [responsePhaseFold, List.foldlM_cons]
    cases hf : f response acc with
    | error e => rfl
    | ok out => rfl
  · intro f out hlist hf
    have hres : (applyResponseInterceptors c response data env).1
        = .ok (replaceUnlessUndefined out.written out.returned) := by
      rw [hfold, hlist]
      simp only [responsePhaseFold, List.foldlM_cons, List.foldlM_nil, hf]
      rfl
    constructor
    · intro hne
      rw [hres, hreplace _ _ hne]
    · intro hundef
      rw [hres, hundef]
      rfl
  · intro A B outA outB hlist hA hB
    have hres : (applyResponseInterceptors c response data env).1
        = .ok (replaceUnlessUndefined outB.written outB.returned) := by
      rw [hfold, hlist]
      simp only [responsePhaseFold, List.foldlM_cons, List.foldlM_nil, hA, Except.map, bind,
        Except.bind, hB]
      rfl
    exact ⟨hres, fun hne => by rw [hres, hreplace _ _ hne]⟩

/-- C10 on clients with two response interceptors, the first returning `false`:
where the second returns `0` the final data is `0`; where it returns `undefined`
the first one's `false` stays; and where the first returns nothing and the second
sets a field on the data in place and returns nothing, the data carries the
field. -/
theorem applyResponseInterceptors_replaces_unless_undefined_witness :
    (applyResponseInterceptors
      (addResponseInterceptor (addResponseInterceptor (APIClient.new sampleBase)
        (constantResponse (.bool false))) (constantResponse (.num 0)))
      { ok := true, status := 200, json := .ok sampleUser } sampleUser { now := 0 }).1
      = .ok (.num 0) ∧
    (applyResponseInterceptors
      (addResponseInterceptor (addResponseInterceptor (APIClient.new sampleBase)
        (constantResponse (.bool false))) (constantResponse .undefined))
      { ok := true, status := 200, json := .ok sampleUser } sampleUser { now := 0 }).1
      = .ok (.bool false) ∧
    (applyResponseInterceptors
      (addResponseInterceptor (addResponseInterceptor (APIClient.new sampleBase)
        (constantResponse .undefined)) (tagInPlace "seen" (.bool true)))
      { ok := true, status := 200, json := .ok sampleUser } sampleUser { now := 0 }).1
      = .ok (.obj [("id", .num 1), ("name", .str "Ann"), ("seen", .bool true)]) :=
  ⟨((applyResponseInterceptors_replaces_unless_undefined _ _ _ _).1).trans rfl,
    (((applyResponseInterceptors_replaces_unless_undefined _ _ _ _).2.2.2.2.2.2.2.2
      (constantResponse (.bool false)) (constantResponse .undefined)
      { written := sampleUser, returned := .bool false }
      { written := .bool false, returned := .undefined } rfl rfl rfl).1).trans rfl,
    ((applyResponseInterceptors_replaces_unless_undefined _ _ _ _).1).trans rfl⟩

/-! ## Facts about the envelope, the pattern and the cache statements -/

theorem find_setProperty (fields : List (String × JSValue)) (name : String) (v : JSValue) :
    ((setProperty fields name v).find? (fun p => p.1 = name)).map Prod.snd = some v := by
  induction fields with
  | nil => simp [setProperty]
  | cons p rest ih =>
    obtain ⟨k, v0⟩ := p
    by_cases hk : k = name
    · simp [setProperty, hk]
    · simpa [setProperty, hk, List.find?_cons] using ih

/-- The envelope carries the flag it was built with. -/
theorem getProperty_withFromCache (data : JSValue) (flag : Bool) :
    getProperty (withFromCache data flag) "fromCache" = some (.bool flag) := by
  simp only [withFromCache, getProperty]
  exact find_setProperty _ _ _

theorem splitChars_no_separator (sep : Char) (piece : List Char) (h : sep ∉ piece) :
    splitChars sep piece = [piece] := by
  induction piece with
  | nil => rfl
  | cons ch rest ih =>
    simp only [List.mem_cons, not_or] at h
    have hne : ¬ ch = sep := fun h0 => h.1 h0.symm
    simp [splitChars, hne, ih h.2]

theorem splitChars_append_separator (sep : Char) (piece tail : List Char) (h : sep ∉ piece) :
    splitChars sep (piece ++ sep :: tail) = piece :: splitChars sep tail := by
  induction piece with
  | nil => simp [splitChars]
  | cons ch rest ih =>
    simp only [List.mem_cons, not_or] at h
    have hne : ¬ ch = sep := fun h0 => h.1 h0.symm
    simp [splitChars, hne, ih h.2]

/-- For an endpoint that starts with a slash followed by a non-empty segment, the
pattern is that segment, which is also its first path segment. -/
theorem invalidationPattern_leading_slash (seg rest : List Char) (hseg : seg ≠ [])
    (hno : '/' ∉ seg) (hrest : rest = [] ∨ ∃ t, rest = '/' :: t) :
    invalidationPattern (String.mk ('/' :: (seg ++ rest))) = String.mk seg ∧
    firstPathSegment (String.mk ('/' :: (seg ++ rest))) = String.mk seg := by
  have hsplit : ∃ more, splitChars '/' ('/' :: (seg ++ rest)) = [] :: seg :: more := by
    rcases hrest with hnil | ⟨t, ht⟩
    · subst hnil
      exact ⟨[], by simp [splitChars, splitChars_no_separator '/' seg hno]⟩
    · subst ht
      exact ⟨splitChars '/' t, by simp [splitChars, splitChars_append_separator '/' seg t hno]⟩
  obtain ⟨more, hmore⟩ := hsplit
  have hempty : seg.isEmpty = false := by
    cases seg with
    | nil => exact absurd rfl hseg
    | cons a l => rfl
  constructor
  · simp [invalidationPattern, hmore, hseg]
  · simp [firstPathSegment, hmore, List.filter_cons, hempty]

theorem methodOrGet_ne_get_of_mutation (options : RequestOptions)
    (hm : options.methodOrGet ∈ ["POST", "PUT", "DELETE"]) : options.methodOrGet ≠ "GET" := by
  intro hget
  rw [hget] at hm
  revert hm
  decide

theorem cacheHit_of_not_get (c : APIClient) (endpoint : String) (options : RequestOptions)
    (now : Int) (h : ¬ (options.methodOrGet = "GET" ∧ options.forceRefresh = false)) :
    cacheHit c endpoint options now = false := by
  simp [cacheHit, h]

theorem afterLookup_of_not_get (c : APIClient) (endpoint : String) (options : RequestOptions)
    (now : Int) (h : ¬ (options.methodOrGet = "GET" ∧ options.forceRefresh = false)) :
    afterLookup c endpoint options now = c := by
  simp [afterLookup, h]

/-- The cache the lookup leaves is the cache it found, or that cache without the key. -/
theorem getFromCache_cache_cases (c : APIClient) (key : String) (now : Int) :
    (getFromCache c key now).2.cache = c.cache ∨
    (getFromCache c key now).2.cache = c.cache.delete key := by
  unfold getFromCache
  split
  · exact Or.inl rfl
  · split
    · exact Or.inl rfl
    · split
      · exact Or.inr rfl
      · exact Or.inl rfl

/-- The cache check adds no entry and touches no key but the request's own. -/
theorem afterLookup_cache (c : APIClient) (endpoint : String) (options : RequestOptions)
    (now : Int) :
    (∀ p ∈ (afterLookup c endpoint options now).cache, p ∈ c.cache) ∧
    (∀ k, k ≠ getCacheKey (c.baseURL ++ endpoint) options →
      (afterLookup c endpoint options now).cache.get k = c.cache.get k) := by
  unfold afterLookup
  split
  · rcases getFromCache_cache_cases c (getCacheKey (c.baseURL ++ endpoint) options) now
      with h | h
    · rw [h]
      exact ⟨fun p hp => hp, fun k _ => rfl⟩
    · rw [h]
      exact ⟨fun p hp => ((Cache.mem_delete _ _ p).mp hp).1,
        fun k hk => Cache.get_delete_of_ne _ _ k hk⟩
  · exact ⟨fun p hp => hp, fun k _ => rfl⟩

/-- A successful POST, PUT or DELETE leaves the cache that `invalidateCache` gives for
the pattern of its endpoint. -/
theorem request_mutation_client (rt : Runtime) (c : APIClient) (endpoint : String)
    (options : RequestOptions) (env : Env) (r : JSValue)
    (hm : options.methodOrGet ∈ ["POST", "PUT", "DELETE"])
    (hok : (request rt c endpoint options env).1 = .ok r) :
    (request rt c endpoint options env).2.1 = invalidateCache c (invalidationPattern endpoint) := by
  have hne := methodOrGet_ne_get_of_mutation options hm
  have hnot : ¬ (options.methodOrGet = "GET" ∧ options.forceRefresh = false) := fun h => hne h.1
  rw [request_of_miss rt c endpoint options env (cacheHit_of_not_get c endpoint options _ hnot),
    afterLookup_of_not_get c endpoint options _ hnot] at hok ⊢
  rcases requestLive_result rt c endpoint options env with ⟨data, hres⟩ | ⟨e, hres⟩
  · rw [hres]
    simp [cacheUpdate, hne, hm]
  · rw [hres] at hok
    cases hok

/-! ## Invalidation after a mutation (C3) -/

/-- C3 as stated fails for an endpoint without a leading slash: a successful
`delete('posts/1')` derives the pattern `1`, not the first path segment `posts`,
and the cached read whose key contains `posts` is still there afterwards. -/
theorem mutation_without_leading_slash_keeps_family :
    (delete (serverReturning (.obj [])) clientWithPostsSlashBase "posts/1" { now := 2000 }).1
      = .ok (withFromCache (.obj []) false) ∧
    firstPathSegment "posts/1" = "posts" ∧
    invalidationPattern "posts/1" = "1" ∧
    ¬ (∀ k ∈ (delete (serverReturning (.obj [])) clientWithPostsSlashBase "posts/1"
          { now := 2000 }).2.1.cache.keys,
        includes k (firstPathSegment "posts/1") = false) := by
  refine ⟨rfl, by decide, by decide, ?_⟩
  intro h
  exact absurd (h "GET:https://api.example.com/posts" (by decide)) (by decide)

/-- C3 amended: after a successful `post`, `put` or `delete` on an endpoint, the cache
is what `invalidateCache` gives for the pattern `endpoint.split('/')[1] || endpoint`,
so no remaining key contains that pattern; and for an endpoint that starts with
a slash followed by a non-empty segment, as `/posts/1`, that pattern is the
first path segment. -/
theorem mutation_invalidates_by_pattern (rt : Runtime) (c : APIClient) (endpoint : String)
    (data : JSValue) (env : Env) :
    (∀ r, (post rt c endpoint data env).1 = .ok r →
      (post rt c endpoint data env).2.1 = invalidateCache c (invalidationPattern endpoint) ∧
      ∀ k ∈ (post rt c endpoint data env).2.1.cache.keys,
        includes k (invalidationPattern endpoint) = false) ∧
    (∀ r, (put rt c endpoint data env).1 = .ok r →
      (put rt c endpoint data env).2.1 = invalidateCache c (invalidationPattern endpoint) ∧
      ∀ k ∈ (put rt c endpoint data env).2.1.cache.keys,
        includes k (invalidationPattern endpoint) = false) ∧
    (∀ r, (delete rt c endpoint env).1 = .ok r →
      (delete rt c endpoint env).2.1 = invalidateCache c (invalidationPattern endpoint) ∧
      ∀ k ∈ (delete rt c endpoint env).2.1.cache.keys,
        includes k (invalidationPattern endpoint) = false) ∧
    (∀ seg rest : List Char, seg ≠ [] → '/' ∉ seg → (rest = [] ∨ ∃ t, rest = '/' :: t) →
      invalidationPattern (String.mk ('/' :: (seg ++ rest))) = String.mk seg ∧
      firstPathSegment (String.mk ('/' :: (seg ++ rest))) = String.mk seg) := by
  have hkeys : ∀ k ∈ (invalidateCache c (invalidationPattern endpoint)).cache.keys,
      includes k (invalidationPattern endpoint) = false := by
    intro k hk
    rw [invalidateCache_cache_eq_filter] at hk
    simp only [Cache.keys, List.mem_map, List.mem_filter] at hk
    obtain ⟨p, ⟨_, hp⟩, rfl⟩ := hk
    simpa using hp
  refine ⟨?_, ?_, ?_, invalidationPattern_leading_slash⟩
  · intro r hok
    have hclient := request_mutation_client rt c endpoint _ env r
      (by simp [RequestOptions.methodOrGet]) hok
    exact ⟨hclient, fun k hk => hkeys k (hclient ▸ hk)⟩
  · intro r hok
    have hclient := request_mutation_client rt c endpoint _ env r
      (by simp [RequestOptions.methodOrGet]) hok
    exact ⟨hclient, fun k hk => hkeys k (hclient ▸ hk)⟩
  · intro r hok
    have hclient := request_mutation_client rt c endpoint _ env r
      (by simp [RequestOptions.methodOrGet]) hok
    exact ⟨hclient, fun k hk => hkeys k (hclient ▸ hk)⟩

/-- C3 amended, at a successful `post('/posts/1', data)` on a client holding a cached
read of `/posts`: the pattern is `posts` and the cache is empty afterwards. -/
theorem mutation_invalidates_by_pattern_witness :
    invalidationPattern "/posts/1" = "posts" ∧
    (post (serverReturning sampleUser) clientWithPosts "/posts/1" sampleUser
      { now := 2000 }).2.1
      = invalidateCache clientWithPosts (invalidationPattern "/posts/1") ∧
    (post (serverReturning sampleUser) clientWithPosts "/posts/1" sampleUser
      { now := 2000 }).2.1.cache.keys = [] :=
  ⟨((mutation_invalidates_by_pattern (serverReturning sampleUser) clientWithPosts "/posts/1"
      sampleUser { now := 2000 }).2.2.2 ['p', 'o', 's', 't', 's'] ['/', '1'] (by decide)
      (by decide) (Or.inr ⟨['1'], rfl⟩)).1,
    ((mutation_invalidates_by_pattern (serverReturning sampleUser) clientWithPosts "/posts/1"
      sampleUser { now := 2000 }).1 (withFromCache sampleUser false) rfl).1,
    by decide⟩

/-! ## Reads: the live fetch and the cache hit (C5, C1) -/

theorem getFromCache_of_expired (c : APIClient) (key : String) (now : Int) (entry : CacheEntry)
    (henabled : c.enableCache = true) (hget : c.cache.get key = some entry)
    (hexpired : now - entry.timestamp > c.cacheTTL) :
    getFromCache c key now = (.null, { c with cache := c.cache.delete key }) := by
  simp [getFromCache, henabled, hget, hexpired]

theorem getFromCache_of_live (c : APIClient) (key : String) (now : Int) (entry : CacheEntry)
    (henabled : c.enableCache = true) (hget : c.cache.get key = some entry)
    (hlive : now - entry.timestamp ≤ c.cacheTTL) :
    getFromCache c key now = (entry.data, c) := by
  have hnot : ¬ now - entry.timestamp > c.cacheTTL := by omega
  simp [getFromCache, henabled, hget, hnot]

/-- A request that misses the cache and whose every stage succeeds at the first
attempt: what it returns, the client and the world it leaves, and the single
transport call it makes. -/
theorem request_of_pipeline_success (rt : Runtime) (c : APIClient) (endpoint : String)
    (options modifiedOptions : RequestOptions) (env env1 env3 : Env) (response : Response)
    (decoded data : JSValue)
    (hmiss : cacheHit c endpoint options env.now = false)
    (h1 : applyRequestInterceptors c (c.baseURL ++ endpoint) options env
      = (.ok modifiedOptions, env1))
    (h2 : rt.fetch env1.fetchCalls (c.baseURL ++ endpoint) modifiedOptions = .resolved response)
    (h3 : response.ok = true)
    (h4 : response.json = .ok decoded)
    (h5 : applyResponseInterceptors c response decoded
        (fetchWithTimeout rt c (c.baseURL ++ endpoint) modifiedOptions env1).2
      = (.ok data, env3)) :
    request rt c endpoint options env
      = (.ok (withFromCache data false),
          cacheUpdate (afterLookup c endpoint options env.now) endpoint options data env3.now,
          env3) ∧
    env3.fetchCalls = env.fetchCalls + 1 := by
  have hretry := requestWithRetry_of_ok rt c (c.baseURL ++ endpoint) modifiedOptions 0 env1
    response (fetchWithTimeout_resolved rt c _ modifiedOptions env1 response h2)
  constructor
  · rw [request_of_miss rt c endpoint options env hmiss,
      afterLookup_eq c endpoint options env.now]
    exact requestLive_of_success rt c _ endpoint options modifiedOptions env env1 _ env3
      response decoded data h1 hretry h3 h4 h5
  · have hresp := (applyResponseInterceptorsLoop_env response c.responseInterceptors decoded
      (fetchWithTimeout rt c (c.baseURL ++ endpoint) modifiedOptions env1).2).2.1
    have hreq := (applyRequestInterceptorsLoop_env (c.baseURL ++ endpoint)
      c.requestInterceptors options env).2.1
    have h1' : applyRequestInterceptorsLoop (c.baseURL ++ endpoint) c.requestInterceptors
        options env = (.ok modifiedOptions, env1) := h1
    have h5' : applyResponseInterceptorsLoop response c.responseInterceptors decoded
        (fetchWithTimeout rt c (c.baseURL ++ endpoint) modifiedOptions env1).2
        = (.ok data, env3) := h5
    rw [h1'] at hreq
    rw [h5', fetchWithTimeout_env] at hresp
    simp only at hreq hresp
    omega

/-- A read whose entry is present, within its life and truthy is answered from the
cache: the same client, the same world, no transport call and no interceptor. -/
theorem get_of_live_truthy_entry (rt : Runtime) (c : APIClient) (endpoint : String)
    (options : RequestOptions) (env : Env) (entry : CacheEntry)
    (henabled : c.enableCache = true) (hforce : options.forceRefresh = false)
    (hentry : c.cache.get
      (getCacheKey (c.baseURL ++ endpoint) { options with method := some "GET" }) = some entry)
    (hlive : env.now - entry.timestamp ≤ c.cacheTTL)
    (htruthy : entry.data.truthy = true) :
    get rt c endpoint options env = (.ok (withFromCache entry.data true), c, env) := by
  have hlookup := getFromCache_of_live c _ env.now entry henabled hentry hlive
  have hhit : cacheHit c endpoint { options with method := some "GET" } env.now = true := by
    simp only [cacheHit, hlookup, htruthy, Bool.and_true, decide_eq_true_eq]
    exact ⟨rfl, hforce⟩
  unfold get
  rw [request_of_hit rt c endpoint _ env hhit, hlookup]

/-- A live read followed by a second read within the life of the entry: when the
data the first read stored is truthy, the second is answered from the cache with
that data and `fromCache: true`, and the world is untouched (no transport call,
no interceptor invoked). -/
theorem repeat_get_is_served_from_cache (rt : Runtime) (c : APIClient) (endpoint : String)
    (options options2 modifiedOptions : RequestOptions) (env env1 env3 later : Env)
    (response : Response) (decoded data : JSValue)
    (henabled : c.enableCache = true)
    (hmiss : cacheHit c endpoint { options with method := some "GET" } env.now = false)
    (h1 : applyRequestInterceptors c (c.baseURL ++ endpoint)
      { options with method := some "GET" } env = (.ok modifiedOptions, env1))
    (h2 : rt.fetch env1.fetchCalls (c.baseURL ++ endpoint) modifiedOptions = .resolved response)
    (h3 : response.ok = true)
    (h4 : response.json = .ok decoded)
    (h5 : applyResponseInterceptors c response decoded
        (fetchWithTimeout rt c (c.baseURL ++ endpoint) modifiedOptions env1).2
      = (.ok data, env3))
    (htruthy : data.truthy = true)
    (hforce : options2.forceRefresh = false)
    (hwithin : later.now - env3.now ≤ c.cacheTTL) :
    (get rt c endpoint options env).1 = .ok (withFromCache data false) ∧
    get rt (get rt c endpoint options env).2.1 endpoint options2 later
      = (.ok (withFromCache data true), (get rt c endpoint options env).2.1, later) := by
  obtain ⟨hres, _⟩ := request_of_pipeline_success rt c endpoint _ modifiedOptions env env1
    env3 response decoded data hmiss h1 h2 h3 h4 h5
  have hget : get rt c endpoint options env
      = request rt c endpoint { options with method := some "GET" } env := rfl
  rw [hget, hres]
  refine ⟨rfl, ?_⟩
  have hclient : cacheUpdate (afterLookup c endpoint { options with method := some "GET" } env.now)
      endpoint { options with method := some "GET" } data env3.now
      = { c with cache :=
          (Cache.set (afterLookup c endpoint { options with method := some "GET" } env.now).cache
            (getCacheKey (c.baseURL ++ endpoint) { options with method := some "GET" })
            { data := data, timestamp := env3.now }) } := by
    rw [afterLookup_eq]
    simp [cacheUpdate, setCache, henabled, RequestOptions.methodOrGet]
  dsimp only
  rw [hclient]
  exact get_of_live_truthy_entry rt _ endpoint options2 later
    { data := data, timestamp := env3.now } henabled hforce
    (Cache.get_set_self _ _ _) hwithin htruthy

/-- A read whose entry is present and within its life but falsy is not answered
from the cache: `request` goes on to the live pipeline. -/
theorem get_of_live_falsy_entry (rt : Runtime) (c : APIClient) (endpoint : String)
    (options : RequestOptions) (env : Env) (entry : CacheEntry)
    (henabled : c.enableCache = true)
    (hentry : c.cache.get
      (getCacheKey (c.baseURL ++ endpoint) { options with method := some "GET" }) = some entry)
    (hlive : env.now - entry.timestamp ≤ c.cacheTTL)
    (hfalsy : entry.data.truthy = false) :
    get rt c endpoint options env
      = requestLive rt c endpoint { options with method := some "GET" } env := by
  have hlookup := getFromCache_of_live c _ env.now entry henabled hentry hlive
  have hmiss : cacheHit c endpoint { options with method := some "GET" } env.now = false := by
    simp [cacheHit, hlookup, hfalsy]
  unfold get
  rw [request_of_miss rt c endpoint _ env hmiss]
  unfold afterLookup
  split
  · rw [hlookup]
  · rfl

/-- C1 at the falsy payloads: a first `get('/count')` fetches the payload `0` and
stores it under `GET:https://api.example.com/count`, stamped 40; a second `get` at
that same instant, well within the 60000 ms life, is tested by `if (cachedData)`,
finds the stored `0` falsy, and makes a second transport call, returning
`fromCache: false`.  The same happens for `false`, `null` and the empty string. -/
theorem falsy_payload_is_fetched_again :
    (get (serverReturning (.num 0)) (APIClient.new sampleBase) "/count" {} { now := 0 }).1
      = .ok (.obj [("fromCache", .bool false)]) ∧
    (get (serverReturning (.num 0)) (APIClient.new sampleBase) "/count" {}
      { now := 0 }).2.1.cache.get "GET:https://api.example.com/count"
      = some { data := .num 0, timestamp := 40 } ∧
    (get (serverReturning (.num 0)) (APIClient.new sampleBase) "/count" {}
      { now := 0 }).2.2.fetchCalls = 1 ∧
    (get (serverReturning (.num 0))
      (get (serverReturning (.num 0)) (APIClient.new sampleBase) "/count" {} { now := 0 }).2.1
      "/count" {}
      (get (serverReturning (.num 0)) (APIClient.new sampleBase) "/count" {}
        { now := 0 }).2.2).1 = .ok (.obj [("fromCache", .bool false)]) ∧
    (get (serverReturning (.num 0))
      (get (serverReturning (.num 0)) (APIClient.new sampleBase) "/count" {} { now := 0 }).2.1
      "/count" {}
      (get (serverReturning (.num 0)) (APIClient.new sampleBase) "/count" {}
        { now := 0 }).2.2).2.2.fetchCalls = 2 ∧
    (∀ p ∈ [JSValue.bool false, JSValue.null, JSValue.str ""],
      (get (serverReturning p)
        (get (serverReturning p) (APIClient.new sampleBase) "/count" {} { now := 0 }).2.1
        "/count" {}
        (get (serverReturning p) (APIClient.new sampleBase) "/count" {}
          { now := 0 }).2.2).2.2.fetchCalls = 2) := by
  refine ⟨rfl, rfl, rfl, rfl, rfl, ?_⟩
  intro p hp
  simp only [List.mem_cons, List.mem_singleton, List.not_mem_nil, or_false] at hp
  rcases hp with rfl | rfl | rfl <;> rfl

/-- C5: with caching enabled, a `get` whose cached entry has expired, whose request
interceptors return, whose transport resolves at the first attempt with an ok
response that decodes, and whose response interceptors return, makes exactly one
transport call, returns `fromCache: false`, and leaves under the endpoint's key
an entry holding the new data stamped with the clock at the end of the call;
the entries under other keys are as they were. -/
theorem expired_read_fetches_once_and_stores (rt : Runtime) (c : APIClient) (endpoint : String)
    (options modifiedOptions : RequestOptions) (env env1 env3 : Env) (entry : CacheEntry)
    (response : Response) (decoded data : JSValue)
    (henabled : c.enableCache = true)
    (hentry : c.cache.get
      (getCacheKey (c.baseURL ++ endpoint) { options with method := some "GET" }) = some entry)
    (hexpired : env.now - entry.timestamp > c.cacheTTL)
    (h1 : applyRequestInterceptors c (c.baseURL ++ endpoint)
      { options with method := some "GET" } env = (.ok modifiedOptions, env1))
    (h2 : rt.fetch env1.fetchCalls (c.baseURL ++ endpoint) modifiedOptions = .resolved response)
    (h3 : response.ok = true)
    (h4 : response.json = .ok decoded)
    (h5 : applyResponseInterceptors c response decoded
        (fetchWithTimeout rt c (c.baseURL ++ endpoint) modifiedOptions env1).2
      = (.ok data, env3)) :
    (get rt c endpoint options env).1 = .ok (withFromCache data false) ∧
    getProperty (withFromCache data false) "fromCache" = some (.bool false) ∧
    (get rt c endpoint options env).2.2.fetchCalls = env.fetchCalls + 1 ∧
    (get rt c endpoint options env).2.1.cache.get
      (getCacheKey (c.baseURL ++ endpoint) { options with method := some "GET" })
      = some { data := data, timestamp := (get rt c endpoint options env).2.2.now } ∧
    (∀ k, k ≠ getCacheKey (c.baseURL ++ endpoint) { options with method := some "GET" } →
      (get rt c endpoint options env).2.1.cache.get k = c.cache.get k) := by
  have hmiss : cacheHit c endpoint { options with method := some "GET" } env.now = false := by
    by_cases hforce : options.forceRefresh = false
    · have hlookup := getFromCache_of_expired c _ env.now entry henabled hentry hexpired
      simp [cacheHit, hlookup, JSValue.truthy]
    · exact cacheHit_of_not_get c endpoint _ _ (fun h => hforce h.2)
  obtain ⟨hres, hcalls⟩ := request_of_pipeline_success rt c endpoint _ modifiedOptions env env1
    env3 response decoded data hmiss h1 h2 h3 h4 h5
  have hget : get rt c endpoint options env
      = request rt c endpoint { options with method := some "GET" } env := rfl
  rw [hget, hres]
  have hupdate : (cacheUpdate (afterLookup c endpoint { options with method := some "GET" } env.now)
      endpoint { options with method := some "GET" } data env3.now).cache
      = (afterLookup c endpoint { options with method := some "GET" } env.now).cache.set
          (getCacheKey (c.baseURL ++ endpoint) { options with method := some "GET" })
          { data := data, timestamp := env3.now } := by
    rw [afterLookup_eq]
    simp [cacheUpdate, setCache, henabled, RequestOptions.methodOrGet]
  refine ⟨rfl, getProperty_withFromCache data false, hcalls, ?_, ?_⟩
  · show (cacheUpdate _ _ _ _ _).cache.get _ = _
    rw [hupdate]
    exact Cache.get_set_self _ _ _
  · intro k hk
    show (cacheUpdate _ _ _ _ _).cache.get _ = _
    rw [hupdate, Cache.get_set_of_ne _ _ k _ hk]
    exact (afterLookup_cache c endpoint _ env.now).2 k hk

/-- C5 at a sample client: the read of `/posts` cached at 1000 has expired at 70000;
`get('/posts')` makes one transport call and stores the new payload stamped 70040. -/
theorem expired_read_fetches_once_and_stores_witness :
    (get (serverReturning sampleUser) clientWithPosts "/posts" {} { now := 70000 }).2.2.fetchCalls
      = 1 ∧
    (get (serverReturning sampleUser) clientWithPosts "/posts" {}
      { now := 70000 }).2.1.cache.get "GET:https://api.example.com/posts"
      = some { data := sampleUser, timestamp := 70040 } :=
  have h := expired_read_fetches_once_and_stores (serverReturning sampleUser) clientWithPosts
    "/posts" {} { method := some "GET" } { now := 70000 } { now := 70000 }
    { now := 70040, fetchCalls := 1 } { data := .arr [sampleUser], timestamp := 1000 }
    { ok := true, status := 200, json := .ok sampleUser } sampleUser sampleUser
    rfl rfl (by decide) rfl rfl rfl rfl rfl
  ⟨h.2.2.1, h.2.2.2.1⟩

/-! ## A completed response with a non-success status (C7) -/

/-- C7: for every verb and endpoint, when the request reaches the transport (no
cache hit, the request interceptors return) and the first attempt completes
with a response whose `ok` is false, `request` makes exactly one transport
call and no retry wait, throws `Error('HTTP Error: <status>')`, invokes no
response interceptor, and leaves the client as the cache check left it: no
entry stored, none invalidated, and for a verb other than GET the client
exactly as it was. -/
theorem non_success_status_fails_without_retry (rt : Runtime) (c : APIClient)
    (endpoint : String) (options modifiedOptions : RequestOptions) (env env1 : Env)
    (response : Response)
    (hmiss : cacheHit c endpoint options env.now = false)
    (h1 : applyRequestInterceptors c (c.baseURL ++ endpoint) options env
      = (.ok modifiedOptions, env1))
    (h2 : rt.fetch env1.fetchCalls (c.baseURL ++ endpoint) modifiedOptions = .resolved response)
    (h3 : response.ok = false) :
    (request rt c endpoint options env).1
      = .error (JSError.mkError ("HTTP Error: " ++ toString response.status)) ∧
    (request rt c endpoint options env).2.2.fetchCalls = env.fetchCalls + 1 ∧
    (request rt c endpoint options env).2.2.waits = env.waits ∧
    (request rt c endpoint options env).2.2.responseInterceptorCalls
      = env.responseInterceptorCalls ∧
    (request rt c endpoint options env).2.1 = afterLookup c endpoint options env.now ∧
    (∀ p ∈ (request rt c endpoint options env).2.1.cache, p ∈ c.cache) ∧
    (∀ k, k ≠ getCacheKey (c.baseURL ++ endpoint) options →
      (request rt c endpoint options env).2.1.cache.get k = c.cache.get k) ∧
    (options.methodOrGet ≠ "GET" → (request rt c endpoint options env).2.1 = c) := by
  have hretry := requestWithRetry_of_ok rt c (c.baseURL ++ endpoint) modifiedOptions 0 env1
    response (fetchWithTimeout_resolved rt c _ modifiedOptions env1 response h2)
  have hres : request rt c endpoint options env
      = (.error (JSError.mkError ("HTTP Error: " ++ toString response.status)),
          afterLookup c endpoint options env.now,
          (fetchWithTimeout rt c (c.baseURL ++ endpoint) modifiedOptions env1).2) := by
    rw [request_of_miss rt c endpoint options env hmiss]
    conv_lhs => rw [afterLookup_eq c endpoint options env.now]
    rw [requestLive_of_status_error rt c _ endpoint options modifiedOptions env env1 _
      response h1 hretry h3, ← afterLookup_eq c endpoint options env.now]
  have hreq := applyRequestInterceptorsLoop_env (c.baseURL ++ endpoint)
    c.requestInterceptors options env
  have h1' : applyRequestInterceptorsLoop (c.baseURL ++ endpoint) c.requestInterceptors
      options env = (.ok modifiedOptions, env1) := h1
  rw [h1'] at hreq
  simp only at hreq
  rw [hres]
  refine ⟨rfl, ?_, ?_, ?_, rfl, ?_, ?_, ?_⟩
  · simp [fetchWithTimeout_env, hreq.2.1]
  · simp [fetchWithTimeout_env, hreq.2.2.1]
  · simp [fetchWithTimeout_env, hreq.2.2.2]
  · exact (afterLookup_cache c endpoint options env.now).1
  · exact (afterLookup_cache c endpoint options env.now).2
  · intro hne
    exact afterLookup_of_not_get c endpoint options env.now (fun h => hne h.1)

/-- C7 at a sample client: `delete('/posts/1')` answered with status 404 makes one
transport call and throws `HTTP Error: 404`, the cache untouched. -/
theorem non_success_status_fails_without_retry_witness :
    (delete (serverRefusing 404) clientWithPosts "/posts/1" { now := 2000 }).1
      = .error (JSError.mkError "HTTP Error: 404") ∧
    (delete (serverRefusing 404) clientWithPosts "/posts/1" { now := 2000 }).2.2.fetchCalls
      = 1 ∧
    (delete (serverRefusing 404) clientWithPosts "/posts/1" { now := 2000 }).2.1
      = clientWithPosts :=
  have h := non_success_status_fails_without_retry (serverRefusing 404) clientWithPosts
    "/posts/1" { method := some "DELETE" } { method := some "DELETE" } { now := 2000 }
    { now := 2000 } { ok := false, status := 404, json := .ok .null } rfl rfl rfl rfl
  ⟨h.1, h.2.1, h.2.2.2.2.2.2.2 (by decide)⟩

/-! ## Failures short-circuit the pipeline (C11) -/

/-- The live pipeline when the body of an ok response does not decode. -/
theorem requestLive_of_json_error (rt : Runtime) (c : APIClient) (X : Cache)
    (endpoint : String) (options modifiedOptions : RequestOptions) (env env1 env2 : Env)
    (response : Response) (e : JSError)
    (h1 : applyRequestInterceptors c (c.baseURL ++ endpoint) options env
      = (.ok modifiedOptions, env1))
    (h2 : requestWithRetry rt c (c.baseURL ++ endpoint) modifiedOptions 0 env1
      = (.ok response, env2))
    (h3 : response.ok = true)
    (h4 : response.json = .error e) :
    requestLive rt { c with cache := X } endpoint options env
      = (.error e, { c with cache := X }, env2) := by
  have h1x : applyRequestInterceptors { c with cache := X } (c.baseURL ++ endpoint) options env
      = (.ok modifiedOptions, env1) := h1
  have h2x : requestWithRetry rt { c with cache := X } (c.baseURL ++ endpoint) modifiedOptions 0
      env1 = (.ok response, env2) := by
    rw [← h2]
    exact (requestWithRetry_congr rt c { c with cache := X } _ _ rfl rfl _ 0 env1 rfl).symm
  simp only [requestLive, h1x, h2x, h3, h4]
  rfl

/-- The live pipeline when a response interceptor throws. -/
theorem requestLive_of_responseInterceptor_error (rt : Runtime) (c : APIClient) (X : Cache)
    (endpoint : String) (options modifiedOptions : RequestOptions) (env env1 env2 env3 : Env)
    (response : Response) (decoded : JSValue) (e : JSError)
    (h1 : applyRequestInterceptors c (c.baseURL ++ endpoint) options env
      = (.ok modifiedOptions, env1))
    (h2 : requestWithRetry rt c (c.baseURL ++ endpoint) modifiedOptions 0 env1
      = (.ok response, env2))
    (h3 : response.ok = true)
    (h4 : response.json = .ok decoded)
    (h5 : applyResponseInterceptors c response decoded env2 = (.error e, env3)) :
    requestLive rt { c with cache := X } endpoint options env
      = (.error e, { c with cache := X }, env3) := by
  have h1x : applyRequestInterceptors { c with cache := X } (c.baseURL ++ endpoint) options env
      = (.ok modifiedOptions, env1) := h1
  have h2x : requestWithRetry rt { c with cache := X } (c.baseURL ++ endpoint) modifiedOptions 0
      env1 = (.ok response, env2) := by
    rw [← h2]
    exact (requestWithRetry_congr rt c { c with cache := X } _ _ rfl rfl _ 0 env1 rfl).symm
  have h5x : applyResponseInterceptors { c with cache := X } response decoded env2
      = (.error e, env3) := h5
  simp only [requestLive, h1x, h2x, h3, h4, h5x]
  rfl

/-- A request that throws has left the client as the cache check left it. -/
theorem request_error_client (rt : Runtime) (c : APIClient) (endpoint : String)
    (options : RequestOptions) (env : Env) (e : JSError)
    (herr : (request rt c endpoint options env).1 = .error e) :
    (request rt c endpoint options env).2.1 = afterLookup c endpoint options env.now := by
  cases hhit : cacheHit c endpoint options env.now with
  | true =>
    rw [request_of_hit rt c endpoint options env hhit] at herr
    cases herr
  | false =>
    rw [request_of_miss rt c endpoint options env hhit] at herr ⊢
    rcases requestLive_result rt (afterLookup c endpoint options env.now) endpoint options env
      with ⟨data, hres⟩ | ⟨e2, hres⟩
    · rw [hres] at herr
      cases herr
    · rw [hres]

/-- C11: a request that fails at any stage skips the later stages.  Whatever the
failure, the client is left as the cache check left it: no entry stored or
overwritten, none invalidated, and after a failed POST, PUT or DELETE the client
exactly as it was.  A request interceptor that throws stops the request before
any transport call; when the transport fails on every attempt, the status is
non-success, or a response interceptor throws, the world is left as that stage
left it; and in each case the value thrown is the one the caller receives. -/
theorem failed_request_skips_later_stages (rt : Runtime) (c : APIClient) (endpoint : String)
    (options : RequestOptions) (env : Env) :
    (∀ e, (request rt c endpoint options env).1 = .error e →
      (request rt c endpoint options env).2.1 = afterLookup c endpoint options env.now ∧
      (∀ p ∈ (request rt c endpoint options env).2.1.cache, p ∈ c.cache) ∧
      (∀ k, k ≠ getCacheKey (c.baseURL ++ endpoint) options →
        (request rt c endpoint options env).2.1.cache.get k = c.cache.get k) ∧
      (options.methodOrGet ≠ "GET" → (request rt c endpoint options env).2.1 = c)) ∧
    (∀ e env1, cacheHit c endpoint options env.now = false →
      applyRequestInterceptors c (c.baseURL ++ endpoint) options env = (.error e, env1) →
      request rt c endpoint options env
        = (.error e, afterLookup c endpoint options env.now, env1) ∧
      env1.fetchCalls = env.fetchCalls ∧ env1.waits = env.waits ∧
      env1.responseInterceptorCalls = env.responseInterceptorCalls) ∧
    (∀ modifiedOptions env1 e env2, cacheHit c endpoint options env.now = false →
      applyRequestInterceptors c (c.baseURL ++ endpoint) options env
        = (.ok modifiedOptions, env1) →
      requestWithRetry rt c (c.baseURL ++ endpoint) modifiedOptions 0 env1 = (.error e, env2) →
      request rt c endpoint options env
        = (.error e, afterLookup c endpoint options env.now, env2)) ∧
    (∀ modifiedOptions env1 response env2, cacheHit c endpoint options env.now = false →
      applyRequestInterceptors c (c.baseURL ++ endpoint) options env
        = (.ok modifiedOptions, env1) →
      requestWithRetry rt c (c.baseURL ++ endpoint) modifiedOptions 0 env1
        = (.ok response, env2) →
      response.ok = false →
      request rt c endpoint options env
        = (.error (JSError.mkError ("HTTP Error: " ++ toString response.status)),
            afterLookup c endpoint options env.now, env2)) ∧
    (∀ modifiedOptions env1 response env2 decoded e env3,
      cacheHit c endpoint options env.now = false →
      applyRequestInterceptors c (c.baseURL ++ endpoint) options env
        = (.ok modifiedOptions, env1) →
      requestWithRetry rt c (c.baseURL ++ endpoint) modifiedOptions 0 env1
        = (.ok response, env2) →
      response.ok = true → response.json = .ok decoded →
      applyResponseInterceptors c response decoded env2 = (.error e, env3) →
      request rt c endpoint options env
        = (.error e, afterLookup c endpoint options env.now, env3)) := by
  refine ⟨?_, ?_, ?_, ?_, ?_⟩
  · intro e herr
    have hclient := request_error_client rt c endpoint options env e herr
    rw [hclient]
    exact ⟨rfl, (afterLookup_cache c endpoint options env.now).1,
      (afterLookup_cache c endpoint options env.now).2,
      fun hne => afterLookup_of_not_get c endpoint options env.now (fun h => hne h.1)⟩
  · intro e env1 hmiss h1
    have hreq := applyRequestInterceptorsLoop_env (c.baseURL ++ endpoint)
      c.requestInterceptors options env
    have h1' : applyRequestInterceptorsLoop (c.baseURL ++ endpoint) c.requestInterceptors
        options env = (.error e, env1) := h1
    rw [h1'] at hreq
    refine ⟨?_, hreq.2.1, hreq.2.2.1, hreq.2.2.2⟩
    rw [request_of_miss rt c endpoint options env hmiss]
    conv_lhs => rw [afterLookup_eq c endpoint options env.now]
    rw [requestLive_of_requestInterceptor_error rt c _ endpoint options env env1 e h1,
      ← afterLookup_eq c endpoint options env.now]
  · intro modifiedOptions env1 e env2 hmiss h1 h2
    rw [request_of_miss rt c endpoint options env hmiss]
    conv_lhs => rw [afterLookup_eq c endpoint options env.now]
    rw [requestLive_of_transport_error rt c _ endpoint options modifiedOptions env env1 env2 e
      h1 h2, ← afterLookup_eq c endpoint options env.now]
  · intro modifiedOptions env1 response env2 hmiss h1 h2 h3
    rw [request_of_miss rt c endpoint options env hmiss]
    conv_lhs => rw [afterLookup_eq c endpoint options env.now]
    rw [requestLive_of_status_error rt c _ endpoint options modifiedOptions env env1 env2
      response h1 h2 h3, ← afterLookup_eq c endpoint options env.now]
  · intro modifiedOptions env1 response env2 decoded e env3 hmiss h1 h2 h3 h4 h5
    rw [request_of_miss rt c endpoint options env hmiss]
    conv_lhs => rw [afterLookup_eq c endpoint options env.now]
    rw [requestLive_of_responseInterceptor_error rt c _ endpoint options modifiedOptions env
      env1 env2 env3 response decoded e h1 h2 h3 h4 h5,
      ← afterLookup_eq c endpoint options env.now]

/-- C11 at a sample client whose request interceptor throws: `post('/posts', user)`
makes no transport call, the caller receives the interceptor's error, and the
cached read of `/posts` is still there. -/
theorem failed_request_skips_later_stages_witness :
    post (serverReturning sampleUser)
      (addRequestInterceptor clientWithPosts (refusingInterceptor "denied")) "/posts" sampleUser
      { now := 2000 }
      = (.error (JSError.mkError "denied"),
          addRequestInterceptor clientWithPosts (refusingInterceptor "denied"),
          { now := 2000, requestInterceptorCalls := 1 }) :=
  ((failed_request_skips_later_stages (serverReturning sampleUser)
      (addRequestInterceptor clientWithPosts (refusingInterceptor "denied")) "/posts"
      { method := some "POST", headers := [("Content-Type", "application/json")],
        body := some "{}" } { now := 2000 }).2.1
    (JSError.mkError "denied") { now := 2000, requestInterceptorCalls := 1 } rfl rfl).1

/-! ## Linear backoff (C12) -/

theorem linearBackoff_succ (n : Nat) :
    linearBackoff (n + 1) = linearBackoff n ++ [1000 * ((n : Int) + 1)] := by
  simp [linearBackoff, List.range_succ]

/-- Whatever the transport does, a retry loop entered with `k` retries left makes
`n + 1` attempts for some `n ≤ k`, waits before each attempt but the first,
the wait before attempt number `retries + j + 2` being `1000 * (retries + j + 1)`,
and uses all `k` retries when it ends in a failure. -/
theorem requestWithRetry_waits (rt : Runtime) (c : APIClient) (url : String)
    (options : RequestOptions) :
    ∀ (k retries : Nat) (env : Env), c.maxRetries - retries = k →
      ∃ n, n ≤ k ∧
        (requestWithRetry rt c url options retries env).2.fetchCalls = env.fetchCalls + n + 1 ∧
        (requestWithRetry rt c url options retries env).2.waits
          = env.waits ++ (List.range n).map (fun j => 1000 * (((retries + j : Nat) : Int) + 1)) ∧
        (∀ e, (requestWithRetry rt c url options retries env).1 = .error e → n = k) := by
  intro k
  induction k with
  | zero =>
    intro retries env hk
    refine ⟨0, le_refl _, ?_⟩
    cases hres : (fetchWithTimeout rt c url options env).1 with
    | ok r =>
      rw [requestWithRetry_of_ok rt c url options retries env r hres]
      simp [fetchWithTimeout_env]
    | error err =>
      have hlt : ¬ retries < c.maxRetries := by omega
      rw [requestWithRetry_of_error rt c url options retries env err hres, if_neg hlt]
      simp [fetchWithTimeout_env]
  | succ k ih =>
    intro retries env hk
    cases hres : (fetchWithTimeout rt c url options env).1 with
    | ok r =>
      refine ⟨0, Nat.zero_le _, ?_⟩
      rw [requestWithRetry_of_ok rt c url options retries env r hres]
      simp [fetchWithTimeout_env]
    | error err =>
      have hlt : retries < c.maxRetries := by omega
      rw [requestWithRetry_of_error rt c url options retries env err hres, if_pos hlt]
      obtain ⟨n, hn, hcalls, hwaits, hall⟩ := ih (retries + 1)
        (sleep (1000 * (retries + 1)) (fetchWithTimeout rt c url options env).2) (by omega)
      refine ⟨n + 1, by omega, ?_, ?_, ?_⟩
      · rw [hcalls]
        simp [sleep, fetchWithTimeout_env]
        omega
      · rw [hwaits]
        simp only [sleep, fetchWithTimeout_env, List.append_assoc, List.singleton_append]
        congr 1
        rw [List.range_succ_eq_map, List.map_cons, List.map_map]
        simp
        intro a _
        ring
      · intro e he
        rw [hall e he]

/-- The elapsed time, split at the first failed attempt and its wait. -/
theorem retryElapsed_succ_front (rt : Runtime) (firstCall retries n : Nat) :
    retryElapsed rt firstCall retries (n + 1)
      = (rt.latency firstCall : Int) + 1000 * ((retries : Int) + 1)
        + retryElapsed rt (firstCall + 1) (retries + 1) n := by
  induction n with
  | zero => simp [retryElapsed]
  | succ n ih =>
    rw [retryElapsed, ih, retryElapsed]
    have h1 : firstCall + 1 + n = firstCall + (n + 1) := by omega
    have h2 : retries + 1 + n = retries + (n + 1) := by omega
    rw [h1, h2]
    ring

/-- Whatever the transport does, a retry loop that makes `n + 1` attempts ends at
the clock reading at which it began plus the latencies of its attempts plus the
waits between them, the wait after the attempt made with `j` retries behind it
being `1000 * (j + 1)` ms. -/
theorem requestWithRetry_clock (rt : Runtime) (c : APIClient) (url : String)
    (options : RequestOptions) :
    ∀ (k retries : Nat) (env : Env), c.maxRetries - retries = k →
      ∃ n, n ≤ k ∧
        (requestWithRetry rt c url options retries env).2.fetchCalls = env.fetchCalls + n + 1 ∧
        (requestWithRetry rt c url options retries env).2.now
          = env.now + retryElapsed rt env.fetchCalls retries n
            + (rt.latency (env.fetchCalls + n) : Int) := by
  intro k
  induction k with
  | zero =>
    intro retries env hk
    refine ⟨0, le_refl _, ?_⟩
    cases hres : (fetchWithTimeout rt c url options env).1 with
    | ok r =>
      rw [requestWithRetry_of_ok rt c url options retries env r hres]
      simp [fetchWithTimeout_env, retryElapsed]
    | error err =>
      have hlt : ¬ retries < c.maxRetries := by omega
      rw [requestWithRetry_of_error rt c url options retries env err hres, if_neg hlt]
      simp [fetchWithTimeout_env, retryElapsed]
  | succ k ih =>
    intro retries env hk
    cases hres : (fetchWithTimeout rt c url options env).1 with
    | ok r =>
      refine ⟨0, Nat.zero_le _, ?_⟩
      rw [requestWithRetry_of_ok rt c url options retries env r hres]
      simp [fetchWithTimeout_env, retryElapsed]
    | error err =>
      have hlt : retries < c.maxRetries := by omega
      rw [requestWithRetry_of_error rt c url options retries env err hres, if_pos hlt]
      obtain ⟨n, hn, hcalls, hnow⟩ := ih (retries + 1)
        (sleep (1000 * (retries + 1)) (fetchWithTimeout rt c url options env).2) (by omega)
      refine ⟨n + 1, by omega, ?_, ?_⟩
      · rw [hcalls]
        simp [sleep, fetchWithTimeout_env]
        omega
      · rw [hnow, retryElapsed_succ_front]
        simp only [sleep, fetchWithTimeout_env]
        have h1 : env.fetchCalls + 1 + n = env.fetchCalls + (n + 1) := by omega
        rw [h1]
        ring

/-- C12: the waits `requestWithRetry` makes are the first `n` terms of the linear
backoff 1000, 2000, 3000, ... where `n`, at most `maxRetries`, is the number of
attempts but the first, all `maxRetries` of them when every attempt fails; the
`k`-th wait is exactly `k * 1000` ms, both in the list of waits and on the
clock: after a failed attempt with `j` retries behind it and one still allowed,
the next attempt starts `1000 * (j + 1)` ms after the failed one ended, and the
loop ends at the clock reading at which it began plus the latencies of its
attempts plus those waits; the waits are strictly increasing; and an attempt
that fails with no retry left is followed by no wait, the loop ending at the
instant that attempt ended. -/
theorem retry_waits_are_linear (rt : Runtime) (c : APIClient) (url : String)
    (options : RequestOptions) (env : Env) :
    (∃ n, n ≤ c.maxRetries ∧
      (requestWithRetry rt c url options 0 env).2.fetchCalls = env.fetchCalls + n + 1 ∧
      (requestWithRetry rt c url options 0 env).2.waits = env.waits ++ linearBackoff n ∧
      (∀ e, (requestWithRetry rt c url options 0 env).1 = .error e → n = c.maxRetries) ∧
      (requestWithRetry rt c url options 0 env).2.now
        = env.now + retryElapsed rt env.fetchCalls 0 n
          + (rt.latency (env.fetchCalls + n) : Int)) ∧
    (AlwaysFails rt →
      (requestWithRetry rt c url options 0 env).2.waits
        = env.waits ++ linearBackoff c.maxRetries ∧
      (requestWithRetry rt c url options 0 env).2.now
        = env.now + retryElapsed rt env.fetchCalls 0 c.maxRetries
          + (rt.latency (env.fetchCalls + c.maxRetries) : Int)) ∧
    (∀ n k, 1 ≤ k → k ≤ n → (linearBackoff n)[k - 1]? = some (1000 * (k : Int))) ∧
    (∀ n, (linearBackoff n).length = n ∧ (linearBackoff n).Pairwise (fun a b => a < b)) ∧
    (∀ retries world e, ¬ retries < c.maxRetries →
      (fetchWithTimeout rt c url options world).1 = .error e →
      (requestWithRetry rt c url options retries world).2.waits = world.waits) ∧
    (∀ retries world e, ¬ retries < c.maxRetries →
      (fetchWithTimeout rt c url options world).1 = .error e →
      (requestWithRetry rt c url options retries world).2.now
        = world.now + (rt.latency world.fetchCalls : Int)) ∧
    (∀ retries world e, retries < c.maxRetries →
      (fetchWithTimeout rt c url options world).1 = .error e →
      requestWithRetry rt c url options retries world
        = requestWithRetry rt c url options (retries + 1)
            { world with
              now := world.now + (rt.latency world.fetchCalls : Int)
                + 1000 * ((retries : Int) + 1)
              fetchCalls := world.fetchCalls + 1
              waits := world.waits ++ [1000 * ((retries : Int) + 1)] }) ∧
    (∀ firstCall k,
      retryElapsed rt firstCall 0 (k + 1)
        = retryElapsed rt firstCall 0 k + (rt.latency (firstCall + k) : Int)
          + 1000 * ((k : Int) + 1)) := by
  have hgen := requestWithRetry_waits rt c url options c.maxRetries 0 env rfl
  have hclock := requestWithRetry_clock rt c url options c.maxRetries 0 env rfl
  have hshape : ∀ n, (List.range n).map (fun j => 1000 * (((0 + j : Nat) : Int) + 1))
      = linearBackoff n := by
    intro n
    simp [linearBackoff]
  have hfirst : ∃ n, n ≤ c.maxRetries ∧
      (requestWithRetry rt c url options 0 env).2.fetchCalls = env.fetchCalls + n + 1 ∧
      (requestWithRetry rt c url options 0 env).2.waits = env.waits ++ linearBackoff n ∧
      (∀ e, (requestWithRetry rt c url options 0 env).1 = .error e → n = c.maxRetries) ∧
      (requestWithRetry rt c url options 0 env).2.now
        = env.now + retryElapsed rt env.fetchCalls 0 n
          + (rt.latency (env.fetchCalls + n) : Int) := by
    obtain ⟨n, hn, hcalls, hwaits, hall⟩ := hgen
    obtain ⟨m, _, hcalls2, hnow⟩ := hclock
    have hmn : m = n := by omega
    subst hmn
    exact ⟨m, hn, hcalls, by rw [hwaits, hshape], hall, hnow⟩
  refine ⟨hfirst, ?_, ?_, ?_, ?_, ?_, ?_, ?_⟩
  · intro hfail
    obtain ⟨n, hn, hcalls, hwaits, hall, hnow⟩ := hfirst
    obtain ⟨e, he⟩ : ∃ e, (requestWithRetry rt c url options 0 env).1 = .error e := by
      rw [(requestWithRetry_all_fail rt c url options hfail c.maxRetries 0 env rfl).2]
      obtain ⟨e0, he0⟩ := hfail (env.fetchCalls + c.maxRetries) url options
      exact fetchWithTimeout_rejected rt c url options _ e0 he0
    have hn2 := hall e he
    subst hn2
    exact ⟨hwaits, hnow⟩
  · intro n k hk1 hkn
    have hlt : k - 1 < n := by omega
    simp only [linearBackoff, List.getElem?_map, List.getElem?_range hlt, Option.map_some']
    congr 1
    have : ((k - 1 : Nat) : Int) = (k : Int) - 1 := by omega
    rw [this]
    ring
  · intro n
    refine ⟨by simp [linearBackoff], ?_⟩
    unfold linearBackoff
    apply List.Pairwise.map _ _ (List.pairwise_lt_range n)
    intro a b hab
    have : (a : Int) < (b : Int) := by exact_mod_cast hab
    omega
  · intro retries world e hlt herr
    rw [requestWithRetry_of_error rt c url options retries world e herr, if_neg hlt]
    simp [fetchWithTimeout_env]
  · intro retries world e hlt herr
    rw [requestWithRetry_of_error rt c url options retries world e herr, if_neg hlt]
    simp [fetchWithTimeout_env]
  · intro retries world e hlt herr
    rw [requestWithRetry_of_error rt c url options retries world e herr, if_pos hlt,
      fetchWithTimeout_env]
    rfl
  · intro firstCall k
    simp [retryElapsed]

/-- C12 on a network where every call times out after 10000 ms, with the default two
retries: the waits are 1000 ms and then 2000 ms, none follows the third attempt,
and the loop that began at 0 ends at 33000. -/
theorem retry_waits_are_linear_witness :
    (requestWithRetry deadNetwork (APIClient.new sampleBase)
      "https://api.example.com/users" {} 0 { now := 0 }).2.waits = [1000, 2000] ∧
    (requestWithRetry deadNetwork (APIClient.new sampleBase)
      "https://api.example.com/users" {} 0 { now := 0 }).2.now = 33000 :=
  ⟨(((retry_waits_are_linear deadNetwork (APIClient.new sampleBase)
      "https://api.example.com/users" {} { now := 0 }).2.1 (fun _ _ _ => ⟨_, rfl⟩)).1).trans rfl,
    (((retry_waits_are_linear deadNetwork (APIClient.new sampleBase)
      "https://api.example.com/users" {} { now := 0 }).2.1 (fun _ _ _ => ⟨_, rfl⟩)).2).trans
      rfl⟩

/-! ## The first read of an endpoint (C13) -/

theorem getFromCache_of_absent (c : APIClient) (key : String) (now : Int)
    (hget : c.cache.get key = none) : getFromCache c key now = (.null, c) := by
  unfold getFromCache
  split
  · rfl
  · simp [hget]

/-- On an empty cache the cache check misses and leaves the client as it is. -/
theorem lookup_of_empty_cache (c : APIClient) (endpoint : String) (options : RequestOptions)
    (now : Int) (hempty : c.cache = []) :
    cacheHit c endpoint options now = false ∧ afterLookup c endpoint options now = c := by
  have hlookup : ∀ key, getFromCache c key now = (.null, c) := fun key =>
    getFromCache_of_absent c key now (by rw [hempty]; rfl)
  constructor
  · simp [cacheHit, hlookup, JSValue.truthy]
  · unfold afterLookup
    split
    · rw [hlookup]
    · rfl

/-- C13 as stated fails: on the default client for `https://api.example.com`, a
successful `get('/users')` on an empty cache leaves one entry, whose key is
`GET:https://api.example.com/users`, the verb and the full URL, and not
`GET:/users`; and on a client built with `enableCache: false` it leaves none. -/
theorem users_read_is_keyed_by_full_url :
    (get (serverReturning sampleUser) (APIClient.new sampleBase) "/users" {}
      { now := 0 }).2.1.cache.keys = ["GET:https://api.example.com/users"] ∧
    ¬ ((get (serverReturning sampleUser) (APIClient.new sampleBase) "/users" {}
      { now := 0 }).2.1.cache.keys = ["GET:/users"]) ∧
    (get (serverReturning sampleUser) (APIClient.new sampleBase { enableCache := some false })
      "/users" {} { now := 0 }).1 = .ok (withFromCache sampleUser false) ∧
    (get (serverReturning sampleUser) (APIClient.new sampleBase { enableCache := some false })
      "/users" {} { now := 0 }).2.1.cache = [] := by
  refine ⟨by decide, by decide, rfl, rfl⟩

/-- C13 amended: for every client with caching enabled and an empty cache, a `get` of
an endpoint (`/users`, say) whose request interceptors return, whose transport
resolves at the first attempt with an ok response that decodes, and whose
response interceptors return, makes exactly one transport call, returns
`fromCache: false`, and leaves the cache holding exactly one entry, whose key is
`GET:` followed by the base address and the endpoint; `getCacheKey` joins the
verb (GET when none is given) and the URL by a colon. -/
theorem first_read_is_cached_under_verb_and_url (rt : Runtime) (c : APIClient)
    (endpoint : String) (options modifiedOptions : RequestOptions) (env env1 env3 : Env)
    (response : Response) (decoded data : JSValue)
    (henabled : c.enableCache = true)
    (hempty : c.cache = [])
    (h1 : applyRequestInterceptors c (c.baseURL ++ endpoint)
      { options with method := some "GET" } env = (.ok modifiedOptions, env1))
    (h2 : rt.fetch env1.fetchCalls (c.baseURL ++ endpoint) modifiedOptions = .resolved response)
    (h3 : response.ok = true)
    (h4 : response.json = .ok decoded)
    (h5 : applyResponseInterceptors c response decoded
        (fetchWithTimeout rt c (c.baseURL ++ endpoint) modifiedOptions env1).2
      = (.ok data, env3)) :
    (get rt c endpoint options env).1 = .ok (withFromCache data false) ∧
    getProperty (withFromCache data false) "fromCache" = some (.bool false) ∧
    (get rt c endpoint options env).2.2.fetchCalls = env.fetchCalls + 1 ∧
    (get rt c endpoint options env).2.1.cache
      = [("GET:" ++ (c.baseURL ++ endpoint),
          { data := data, timestamp := (get rt c endpoint options env).2.2.now })] ∧
    (∀ url (given : RequestOptions),
      getCacheKey url given = given.methodOrGet ++ ":" ++ url) := by
  obtain ⟨hmiss, hafter⟩ := lookup_of_empty_cache c endpoint
    { options with method := some "GET" } env.now hempty
  obtain ⟨hres, hcalls⟩ := request_of_pipeline_success rt c endpoint _ modifiedOptions env env1
    env3 response decoded data hmiss h1 h2 h3 h4 h5
  have hget : get rt c endpoint options env
      = request rt c endpoint { options with method := some "GET" } env := rfl
  rw [hget, hres, hafter]
  refine ⟨rfl, getProperty_withFromCache data false, hcalls, ?_, fun _ _ => rfl⟩
  simp [cacheUpdate, setCache, henabled, hempty, RequestOptions.methodOrGet, getCacheKey,
    Cache.set]

/-- C13 amended, at the default client for `https://api.example.com`: one transport
call, and the cache holds the one entry `GET:https://api.example.com/users`. -/
theorem first_read_is_cached_under_verb_and_url_witness :
    (get (serverReturning sampleUser) (APIClient.new sampleBase) "/users" {}
      { now := 0 }).2.2.fetchCalls = 1 ∧
    (get (serverReturning sampleUser) (APIClient.new sampleBase) "/users" {}
      { now := 0 }).2.1.cache
      = [("GET:https://api.example.com/users", { data := sampleUser, timestamp := 40 })] :=
  have h := first_read_is_cached_under_verb_and_url (serverReturning sampleUser)
    (APIClient.new sampleBase) "/users" {} { method := some "GET" } { now := 0 } { now := 0 }
    { now := 40, fetchCalls := 1 } { ok := true, status := 200, json := .ok sampleUser }
    sampleUser sampleUser rfl rfl rfl rfl rfl rfl rfl
  ⟨h.2.2.1, h.2.2.2.1⟩

/-! ## The result envelope (C14) -/

theorem setProperty_of_fresh (fields : List (String × JSValue)) (name : String) (v : JSValue)
    (hfresh : ∀ p ∈ fields, p.1 ≠ name) :
    setProperty fields name v = fields ++ [(name, v)] := by
  induction fields with
  | nil => rfl
  | cons p rest ih =>
    obtain ⟨k, v0⟩ := p
    have hk : ¬ k = name := hfresh (k, v0) (List.mem_cons_self _ _)
    have hrest := ih (fun q hq => hfresh q (List.mem_cons_of_mem _ hq))
    simp [setProperty, hk, hrest]

theorem digitChar_isDigit (m : Nat) (h : m < 10) : (Nat.digitChar m).isDigit = true := by
  interval_cases m <;> rfl

theorem toDigitsCore_isDigit (fuel : Nat) : ∀ (n : Nat) (ds : List Char),
    (∀ ch ∈ ds, ch.isDigit = true) →
      ∀ ch ∈ Nat.toDigitsCore 10 fuel n ds, ch.isDigit = true := by
  induction fuel with
  | zero =>
    intro n ds hds ch hch
    simpa [Nat.toDigitsCore] using hds ch hch
  | succ fuel ih =>
    intro n ds hds ch hch
    have hcons : ∀ x ∈ Nat.digitChar (n % 10) :: ds, x.isDigit = true := by
      intro x hx
      rcases List.mem_cons.mp hx with rfl | hx
      · exact digitChar_isDigit _ (Nat.mod_lt _ (by decide))
      · exact hds x hx
    simp only [Nat.toDigitsCore] at hch
    split at hch
    · exact hcons ch hch
    · exact ih _ _ hcons ch hch

/-- An array index, written out, is never the name `fromCache`. -/
theorem index_ne_fromCache (i : Nat) : toString i ≠ "fromCache" := by
  intro h
  have hmem : 'f' ∈ (toString i).toList := by
    rw [h]
    decide
  have hdigit := toDigitsCore_isDigit (i + 1) i [] (by simp) 'f'
    (by simpa [toString, Nat.repr, Nat.toDigits, List.asString] using hmem)
  exact absurd hdigit (by decide)

/-- C14 as stated fails: the content of a payload is not always recoverable from
what `request` returns.  Two payloads that differ only in a field of their own
named `fromCache` give the same result, the field being overwritten by the
flag; and the primitive payloads `0` and `7` both give `{ fromCache: false }`. -/
theorem envelope_loses_payload_content :
    (get (serverReturning (.obj [("id", .num 1), ("fromCache", .str "upstream")]))
      (APIClient.new sampleBase) "/item" {} { now := 0 }).1
      = .ok (.obj [("id", .num 1), ("fromCache", .bool false)]) ∧
    (get (serverReturning (.obj [("id", .num 1), ("fromCache", .str "replica")]))
      (APIClient.new sampleBase) "/item" {} { now := 0 }).1
      = .ok (.obj [("id", .num 1), ("fromCache", .bool false)]) ∧
    (get (serverReturning (.num 0)) (APIClient.new sampleBase) "/count" {} { now := 0 }).1
      = .ok (.obj [("fromCache", .bool false)]) ∧
    (get (serverReturning (.num 7)) (APIClient.new sampleBase) "/count" {} { now := 0 }).1
      = .ok (.obj [("fromCache", .bool false)]) ∧
    ¬ (∀ d d' : JSValue,
        (get (serverReturning d) (APIClient.new sampleBase) "/item" {} { now := 0 }).1
          = (get (serverReturning d') (APIClient.new sampleBase) "/item" {} { now := 0 }).1 →
        d = d') := by
  refine ⟨rfl, rfl, rfl, rfl, ?_⟩
  intro h
  have heq := h (.obj [("id", .num 1), ("fromCache", .str "upstream")])
    (.obj [("id", .num 1), ("fromCache", .str "replica")]) rfl
  simp at heq

/-- C14 amended: what `request` returns is the object literal `{ ...data, fromCache }`,
with `fromCache` true on a cache hit (data being the cached payload) and false
after a live fetch (data being the decoded payload as the response interceptors
left it).  For a payload that is an object with no field of its own named
`fromCache` the result holds the payload's fields unchanged and in order,
followed by the one added field `fromCache`; for an array it holds the elements
unchanged and in order under their indices, followed by `fromCache`. -/
theorem envelope_of_object_or_array (rt : Runtime) (c : APIClient) (endpoint : String)
    (options : RequestOptions) (env : Env) :
    (cacheHit c endpoint options env.now = true →
      (request rt c endpoint options env).1
        = .ok (withFromCache
            (getFromCache c (getCacheKey (c.baseURL ++ endpoint) options) env.now).1 true)) ∧
    (∀ modifiedOptions env1 response env2 decoded data env3,
      cacheHit c endpoint options env.now = false →
      applyRequestInterceptors c (c.baseURL ++ endpoint) options env
        = (.ok modifiedOptions, env1) →
      requestWithRetry rt c (c.baseURL ++ endpoint) modifiedOptions 0 env1
        = (.ok response, env2) →
      response.ok = true → response.json = .ok decoded →
      applyResponseInterceptors c response decoded env2 = (.ok data, env3) →
      (request rt c endpoint options env).1 = .ok (withFromCache data false)) ∧
    (∀ r, (request rt c endpoint options env).1 = .ok r →
      ∃ data flag, r = withFromCache data flag) ∧
    (∀ fields flag, (∀ p ∈ fields, p.1 ≠ "fromCache") →
      withFromCache (.obj fields) flag = .obj (fields ++ [("fromCache", .bool flag)])) ∧
    (∀ xs flag,
      withFromCache (.arr xs) flag
        = .obj (xs.enum.map (fun p => (toString p.1, p.2)) ++ [("fromCache", .bool flag)]) ∧
      (xs.enum.map (fun p => (toString p.1, p.2)) ++ [("fromCache", JSValue.bool flag)]).map
        Prod.snd = xs ++ [.bool flag]) ∧
    (∀ data flag, getProperty (withFromCache data flag) "fromCache" = some (.bool flag)) := by
  refine ⟨?_, ?_, ?_, ?_, ?_, getProperty_withFromCache⟩
  · intro hhit
    rw [request_of_hit rt c endpoint options env hhit]
  · intro modifiedOptions env1 response env2 decoded data env3 hmiss h1 h2 h3 h4 h5
    rw [request_of_miss rt c endpoint options env hmiss,
      afterLookup_eq c endpoint options env.now,
      requestLive_of_success rt c _ endpoint options modifiedOptions env env1 env2 env3
        response decoded data h1 h2 h3 h4 h5]
  · intro r hok
    cases hhit : cacheHit c endpoint options env.now with
    | true =>
      rw [request_of_hit rt c endpoint options env hhit] at hok
      exact ⟨_, true, (Except.ok.inj hok).symm⟩
    | false =>
      rw [request_of_miss rt c endpoint options env hhit] at hok
      rcases requestLive_result rt (afterLookup c endpoint options env.now) endpoint options env
        with ⟨data, hres⟩ | ⟨e, hres⟩
      · rw [hres] at hok
        exact ⟨data, false, (Except.ok.inj hok).symm⟩
      · rw [hres] at hok
        cases hok
  · intro fields flag hfresh
    simp only [withFromCache, ownProperties]
    rw [setProperty_of_fresh fields "fromCache" _ hfresh]
  · intro xs flag
    constructor
    · simp only [withFromCache, ownProperties]
      rw [setProperty_of_fresh _ "fromCache" _ ?_]
      intro p hp
      obtain ⟨q, _, rfl⟩ := List.mem_map.mp hp
      exact index_ne_fromCache q.1
    · simp [List.map_map, Function.comp_def, List.enum_map_snd]

/-- C14 amended, at the sample user object: the result is the user's two fields,
then `fromCache`. -/
theorem envelope_of_object_or_array_witness :
    withFromCache sampleUser false
      = .obj [("id", .num 1), ("name", .str "Ann"), ("fromCache", .bool false)] :=
  (envelope_of_object_or_array (serverReturning sampleUser) (APIClient.new sampleBase) "/users"
    {} { now := 0 }).2.2.2.1 [("id", .num 1), ("name", .str "Ann")] false (by decide)

/-! ## Cache statistics (C16) -/

/-- C16: `getCacheStats()` does not change the client, whether or not entries have
expired (an expired entry that a lookup would delete is still there after it);
the reported `size` is the number of stored entries and `keys` their keys; and
at a clock reading `now` the entry reported for a stored entry has
`age = now - timestamp` and `expiresIn = cacheTTL - age`, so that
`age + expiresIn = cacheTTL` and `expiresIn` is negative exactly when the entry
has expired. -/
theorem getCacheStats_is_read_only (c : APIClient) (now : Int) :
    (getCacheStatsCall c now).2 = c ∧
    (getCacheStatsCall c now).1 = getCacheStats c now ∧
    (getCacheStats c now).size = c.cache.length ∧
    (getCacheStats c now).keys = c.cache.keys ∧
    (getCacheStats c now).entries.length = c.cache.length ∧
    (∀ i : Nat, (getCacheStats c now).entries[i]?
      = (c.cache[i]?).map (fun p =>
          ({ key := p.1
             age := now - p.2.timestamp
             expiresIn := c.cacheTTL - (now - p.2.timestamp) } : CacheStatsEntry))) ∧
    (∀ s ∈ (getCacheStats c now).entries,
      s.age + s.expiresIn = c.cacheTTL ∧ s.expiresIn = c.cacheTTL - s.age ∧
      (s.expiresIn < 0 ↔ s.age > c.cacheTTL)) ∧
    (∀ key entry, c.enableCache = true → c.cache.get key = some entry →
      now - entry.timestamp > c.cacheTTL →
      (getFromCache c key now).2.cache.get key = none ∧
      (getCacheStatsCall c now).2.cache.get key = some entry) := by
  refine ⟨rfl, rfl, rfl, rfl, by simp [getCacheStats], ?_, ?_, ?_⟩
  · intro i
    simp [getCacheStats, List.getElem?_map]
  · intro s hs
    simp only [getCacheStats, List.mem_map] at hs
    obtain ⟨p, _, rfl⟩ := hs
    refine ⟨by ring, rfl, ?_⟩
    constructor <;> intro h <;> simp only at h ⊢ <;> omega
  · intro key entry henabled hget hexpired
    rw [getFromCache_of_expired c key now entry henabled hget hexpired]
    exact ⟨Cache.get_delete_self c.cache key, hget⟩

/-- C16 at the sample client at time 70000, when its one entry (captured at 1000, life
60000) has expired: the entry is reported with age 69000 and `expiresIn` -9000,
and the client is unchanged. -/
theorem getCacheStats_is_read_only_witness :
    getCacheStatsCall clientWithPosts 70000
      = ({ size := 1
           keys := ["GET:https://api.example.com/posts"]
           entries := [{ key := "GET:https://api.example.com/posts"
                         age := 69000
                         expiresIn := -9000 }] },
          clientWithPosts) :=
  Prod.ext ((getCacheStats_is_read_only clientWithPosts 70000).2.1.trans rfl)
    (getCacheStats_is_read_only clientWithPosts 70000).1

/-! ## Facts about what a request does to the client -/

/-! ## Facts about what a request does to the client -/

theorem SameConfig.refl (c : APIClient) : SameConfig c c := rfl

theorem SameConfig.trans {a b c : APIClient} (hab : SameConfig a b) (hbc : SameConfig b c) :
    SameConfig a c := by
  unfold SameConfig at *
  rw [hbc, hab]

theorem SameConfig.baseURL {c c' : APIClient} (h : SameConfig c c') : c'.baseURL = c.baseURL := by
  unfold SameConfig at h
  rw [h]

theorem SameConfig.enableCache {c c' : APIClient} (h : SameConfig c c') :
    c'.enableCache = c.enableCache := by
  unfold SameConfig at h
  rw [h]

theorem setCache_sameConfig (c : APIClient) (key : String) (data : JSValue) (now : Int) :
    SameConfig c (setCache c key data now) := by
  unfold setCache SameConfig
  split <;> rfl

theorem invalidateCache_sameConfig (c : APIClient) (pattern : String) :
    SameConfig c (invalidateCache c pattern) := rfl

theorem cacheUpdate_sameConfig (c : APIClient) (endpoint : String) (options : RequestOptions)
    (data : JSValue) (now : Int) : SameConfig c (cacheUpdate c endpoint options data now) := by
  unfold cacheUpdate
  simp only
  split
  · split
    · exact (setCache_sameConfig c _ data now).trans (invalidateCache_sameConfig _ _)
    · exact invalidateCache_sameConfig _ _
  · split
    · exact setCache_sameConfig c _ data now
    · exact SameConfig.refl c

theorem afterLookup_sameConfig (c : APIClient) (endpoint : String) (options : RequestOptions)
    (now : Int) : SameConfig c (afterLookup c endpoint options now) :=
  afterLookup_eq c endpoint options now

theorem Cache.mem_keys_set (cache : Cache) (key k : String) (e : CacheEntry)
    (h : k ∈ (cache.set key e).keys) : k = key ∨ k ∈ cache.keys := by
  induction cache with
  | nil =>
    simp only [Cache.set, Cache.keys, List.map_cons, List.map_nil, List.mem_singleton] at h
    exact Or.inl h
  | cons p rest ih =>
    obtain ⟨k0, e0⟩ := p
    by_cases hk : k0 = key
    · simp only [Cache.set, hk, if_true, Cache.keys, List.map_cons, List.mem_cons] at h ⊢
      rcases h with h | h
      · exact Or.inl h
      · exact Or.inr (Or.inr h)
    · simp only [Cache.set, hk, if_false, Cache.keys, List.map_cons, List.mem_cons] at h ⊢
      rcases h with h | h
      · exact Or.inr (Or.inl h)
      · rcases ih h with h2 | h2
        · exact Or.inl h2
        · exact Or.inr (Or.inr h2)

theorem Cache.mem_set_of_ne (cache : Cache) (key : String) (e : CacheEntry)
    (p : String × CacheEntry) (hp : p.1 ≠ key) : p ∈ cache.set key e ↔ p ∈ cache := by
  induction cache with
  | nil =>
    simp only [Cache.set, List.mem_singleton, List.not_mem_nil, iff_false]
    intro h
    exact hp (by rw [h])
  | cons q rest ih =>
    obtain ⟨k0, e0⟩ := q
    by_cases hk : k0 = key
    · subst hk
      simp only [Cache.set, if_true, List.mem_cons]
      constructor
      · rintro (h | h)
        · exact absurd (by rw [h]) hp
        · exact Or.inr h
      · rintro (h | h)
        · exact absurd (by rw [h]) hp
        · exact Or.inr h
    · simp only [Cache.set, hk, if_false, List.mem_cons, ih]

/-- The keys after the two cache statements of `request`: those there before, and
for a GET possibly the key of the request. -/
theorem cacheUpdate_keys (c : APIClient) (endpoint : String) (options : RequestOptions)
    (data : JSValue) (now : Int) :
    ∀ k ∈ (cacheUpdate c endpoint options data now).cache.keys,
      k ∈ c.cache.keys ∨
      (k = getCacheKey (c.baseURL ++ endpoint) options ∧ options.methodOrGet = "GET") := by
  intro k hk
  by_cases hget : options.methodOrGet = "GET"
  · have hupdate : cacheUpdate c endpoint options data now
        = setCache c (getCacheKey (c.baseURL ++ endpoint) options) data now := by
      simp [cacheUpdate, hget]
    rw [hupdate] at hk
    cases henabled : c.enableCache with
    | false =>
      simp only [setCache, henabled] at hk
      exact Or.inl hk
    | true =>
      simp only [setCache, henabled] at hk
      rcases Cache.mem_keys_set _ _ _ _ hk with h | h
      · exact Or.inr ⟨h, hget⟩
      · exact Or.inl h
  · left
    simp only [cacheUpdate, hget, if_false] at hk
    split at hk
    · rw [invalidateCache_cache_eq_filter] at hk
      simp only [Cache.keys, List.mem_map, List.mem_filter] at hk ⊢
      obtain ⟨p, ⟨hp, _⟩, rfl⟩ := hk
      exact ⟨p, hp, rfl⟩
    · exact hk

/-- For a verb other than GET the two cache statements add no entry. -/
theorem cacheUpdate_subset_of_not_get (c : APIClient) (endpoint : String)
    (options : RequestOptions) (data : JSValue) (now : Int)
    (hne : options.methodOrGet ≠ "GET") :
    ∀ p ∈ (cacheUpdate c endpoint options data now).cache, p ∈ c.cache := by
  intro p hp
  simp only [cacheUpdate, hne, if_false] at hp
  split at hp
  · rw [invalidateCache_cache_eq_filter] at hp
    exact (List.mem_filter.mp hp).1
  · exact hp

/-- A live pipeline that returns has made at least one transport call. -/
theorem requestLive_ok_fetches (rt : Runtime) (c : APIClient) (endpoint : String)
    (options : RequestOptions) (env : Env) (r : JSValue)
    (hok : (requestLive rt c endpoint options env).1 = .ok r) :
    env.fetchCalls + 1 ≤ (requestLive rt c endpoint options env).2.2.fetchCalls := by
  rcases h1 : applyRequestInterceptors c (c.baseURL ++ endpoint) options env with ⟨r1, env1⟩
  cases r1 with
  | error e =>
    rw [requestLive_of_requestInterceptor_error rt c c.cache endpoint options env env1 e h1] at hok
    cases hok
  | ok modifiedOptions =>
    rcases h2 : requestWithRetry rt c (c.baseURL ++ endpoint) modifiedOptions 0 env1
      with ⟨r2, env2⟩
    cases r2 with
    | error e =>
      rw [requestLive_of_transport_error rt c c.cache endpoint options _ env env1 env2 e h1 h2]
        at hok
      cases hok
    | ok response =>
      cases h3 : response.ok with
      | false =>
        rw [requestLive_of_status_error rt c c.cache endpoint options _ env env1 env2 response
          h1 h2 h3] at hok
        cases hok
      | true =>
        cases h4 : response.json with
        | error e =>
          rw [requestLive_of_json_error rt c c.cache endpoint options _ env env1 env2 response e
            h1 h2 h3 h4] at hok
          cases hok
        | ok decoded =>
          rcases h5 : applyResponseInterceptors c response decoded env2 with ⟨r5, env3⟩
          cases r5 with
          | error e =>
            rw [requestLive_of_responseInterceptor_error rt c c.cache endpoint options _ env env1
              env2 env3 response decoded e h1 h2 h3 h4 h5] at hok
            cases hok
          | ok data =>
            rw [requestLive_of_success rt c c.cache endpoint options _ env env1 env2 env3
              response decoded data h1 h2 h3 h4 h5]
            have hreq := (applyRequestInterceptorsLoop_env (c.baseURL ++ endpoint)
              c.requestInterceptors options env).2.1
            have h1' : applyRequestInterceptorsLoop (c.baseURL ++ endpoint)
                c.requestInterceptors options env = (.ok modifiedOptions, env1) := h1
            rw [h1'] at hreq
            have hresp := (applyResponseInterceptorsLoop_env response c.responseInterceptors
              decoded env2).2.1
            have h5' : applyResponseInterceptorsLoop response c.responseInterceptors decoded
                env2 = (.ok data, env3) := h5
            rw [h5'] at hresp
            obtain ⟨n, _, hcalls, _, _⟩ := requestWithRetry_waits rt c (c.baseURL ++ endpoint)
              modifiedOptions c.maxRetries 0 env1 rfl
            rw [h2] at hcalls
            simp only at hreq hresp hcalls ⊢
            omega

/-- The three ways a request ends: answered from the cache; thrown, the client left
as the cache check left it; or returned after a live fetch of at least one
transport call, the cache statements applied to the client the check left. -/
theorem request_outcome (rt : Runtime) (c : APIClient) (endpoint : String)
    (options : RequestOptions) (env : Env) :
    (cacheHit c endpoint options env.now = true ∧
      request rt c endpoint options env
        = (.ok (withFromCache
              (getFromCache c (getCacheKey (c.baseURL ++ endpoint) options) env.now).1 true),
            afterLookup c endpoint options env.now, env)) ∨
    (cacheHit c endpoint options env.now = false ∧
      ∃ e, (request rt c endpoint options env).1 = .error e ∧
        (request rt c endpoint options env).2.1 = afterLookup c endpoint options env.now) ∨
    (cacheHit c endpoint options env.now = false ∧
      ∃ data, (request rt c endpoint options env).1 = .ok (withFromCache data false) ∧
        (request rt c endpoint options env).2.1
          = cacheUpdate (afterLookup c endpoint options env.now) endpoint options data
              (request rt c endpoint options env).2.2.now ∧
        env.fetchCalls + 1 ≤ (request rt c endpoint options env).2.2.fetchCalls) := by
  cases hhit : cacheHit c endpoint options env.now with
  | true =>
    left
    refine ⟨rfl, ?_⟩
    rw [request_of_hit rt c endpoint options env hhit]
    have hget : options.methodOrGet = "GET" ∧ options.forceRefresh = false := by
      simp only [cacheHit, Bool.and_eq_true, decide_eq_true_eq] at hhit
      exact hhit.1
    simp [afterLookup, hget]
  | false =>
    right
    rw [request_of_miss rt c endpoint options env hhit]
    rcases requestLive_result rt (afterLookup c endpoint options env.now) endpoint options env
      with ⟨data, hres⟩ | ⟨e, hres⟩
    · right
      refine ⟨rfl, data, by rw [hres], by rw [hres], ?_⟩
      exact requestLive_ok_fetches rt _ endpoint options env (withFromCache data false)
        (by rw [hres])
    · left
      exact ⟨rfl, e, by rw [hres], by rw [hres]⟩

/-- A request leaves the configuration and the interceptors of the client alone. -/
theorem request_sameConfig (rt : Runtime) (c : APIClient) (endpoint : String)
    (options : RequestOptions) (env : Env) :
    SameConfig c (request rt c endpoint options env).2.1 := by
  rcases request_outcome rt c endpoint options env with ⟨_, h⟩ | ⟨_, e, _, h⟩ | ⟨_, d, _, h, _⟩
  · rw [h]
    exact afterLookup_sameConfig c endpoint options env.now
  · rw [h]
    exact afterLookup_sameConfig c endpoint options env.now
  · rw [h]
    exact (afterLookup_sameConfig c endpoint options env.now).trans (cacheUpdate_sameConfig _ _ _ _ _)

/-- The keys after a request: those there before, and possibly the key of the
request itself when it is a GET that returned. -/
theorem request_keys (rt : Runtime) (c : APIClient) (endpoint : String)
    (options : RequestOptions) (env : Env) :
    ∀ k ∈ (request rt c endpoint options env).2.1.cache.keys,
      k ∈ c.cache.keys ∨
      (k = getCacheKey (c.baseURL ++ endpoint) options ∧ options.methodOrGet = "GET" ∧
        ∃ r, (request rt c endpoint options env).1 = .ok r) := by
  intro k hk
  have hsub : ∀ k ∈ (afterLookup c endpoint options env.now).cache.keys, k ∈ c.cache.keys := by
    intro k hk
    simp only [Cache.keys, List.mem_map] at hk ⊢
    obtain ⟨p, hp, rfl⟩ := hk
    exact ⟨p, (afterLookup_cache c endpoint options env.now).1 p hp, rfl⟩
  rcases request_outcome rt c endpoint options env with ⟨_, h⟩ | ⟨_, e, _, h⟩ | ⟨_, d, hok, h, _⟩
  · rw [h] at hk
    exact Or.inl (hsub k hk)
  · rw [h] at hk
    exact Or.inl (hsub k hk)
  · rw [h] at hk
    rcases cacheUpdate_keys _ endpoint options d _ k hk with h1 | ⟨h1, h2⟩
    · exact Or.inl (hsub k h1)
    · right
      rw [(afterLookup_sameConfig c endpoint options env.now).baseURL] at h1
      exact ⟨h1, h2, _, hok⟩

/-- A request with a verb other than GET adds no entry and is never answered from
the cache: when it returns it has made a transport call and says
`fromCache: false`. -/
theorem request_not_get (rt : Runtime) (c : APIClient) (endpoint : String)
    (options : RequestOptions) (env : Env) (hne : options.methodOrGet ≠ "GET") :
    (∀ p ∈ (request rt c endpoint options env).2.1.cache, p ∈ c.cache) ∧
    (∀ r, (request rt c endpoint options env).1 = .ok r →
      env.fetchCalls + 1 ≤ (request rt c endpoint options env).2.2.fetchCalls ∧
      getProperty r "fromCache" = some (.bool false)) := by
  have hnot : ¬ (options.methodOrGet = "GET" ∧ options.forceRefresh = false) := fun h => hne h.1
  have hmiss := cacheHit_of_not_get c endpoint options env.now hnot
  have hafter := afterLookup_of_not_get c endpoint options env.now hnot
  rcases request_outcome rt c endpoint options env with ⟨hhit, _⟩ | ⟨_, e, herr, h⟩ |
    ⟨_, d, hok, h, hcalls⟩
  · rw [hmiss] at hhit
    cases hhit
  · constructor
    · intro p hp
      rw [h, hafter] at hp
      exact hp
    · intro r hr
      rw [herr] at hr
      cases hr
  · constructor
    · intro p hp
      rw [h, hafter] at hp
      exact cacheUpdate_subset_of_not_get c endpoint options d _ hne p hp
    · intro r hr
      rw [hok] at hr
      cases hr
      exact ⟨hcalls, getProperty_withFromCache d false⟩

/-- Once the request interceptors have returned, the live pipeline makes at least
one transport call, however it ends. -/
theorem requestLive_fetches (rt : Runtime) (c : APIClient) (endpoint : String)
    (options modifiedOptions : RequestOptions) (env env1 : Env)
    (h1 : applyRequestInterceptors c (c.baseURL ++ endpoint) options env
      = (.ok modifiedOptions, env1)) :
    env.fetchCalls + 1 ≤ (requestLive rt c endpoint options env).2.2.fetchCalls := by
  have hreq := (applyRequestInterceptorsLoop_env (c.baseURL ++ endpoint)
    c.requestInterceptors options env).2.1
  have h1' : applyRequestInterceptorsLoop (c.baseURL ++ endpoint)
      c.requestInterceptors options env = (.ok modifiedOptions, env1) := h1
  rw [h1'] at hreq
  obtain ⟨n, _, hcalls, _, _⟩ := requestWithRetry_waits rt c (c.baseURL ++ endpoint)
    modifiedOptions c.maxRetries 0 env1 rfl
  rcases h2 : requestWithRetry rt c (c.baseURL ++ endpoint) modifiedOptions 0 env1
    with ⟨r2, env2⟩
  rw [h2] at hcalls
  simp only at hreq hcalls
  cases r2 with
  | error e =>
    rw [requestLive_of_transport_error rt c c.cache endpoint options _ env env1 env2 e h1 h2]
    simp only
    omega
  | ok response =>
    cases h3 : response.ok with
    | false =>
      rw [requestLive_of_status_error rt c c.cache endpoint options _ env env1 env2 response
        h1 h2 h3]
      simp only
      omega
    | true =>
      cases h4 : response.json with
      | error e =>
        rw [requestLive_of_json_error rt c c.cache endpoint options _ env env1 env2 response e
          h1 h2 h3 h4]
        simp only
        omega
      | ok decoded =>
        have hresp := (applyResponseInterceptorsLoop_env response c.responseInterceptors
          decoded env2).2.1
        rcases h5 : applyResponseInterceptors c response decoded env2 with ⟨r5, env3⟩
        have h5' : applyResponseInterceptorsLoop response c.responseInterceptors decoded
            env2 = (r5, env3) := h5
        rw [h5'] at hresp
        simp only at hresp
        cases r5 with
        | error e =>
          rw [requestLive_of_responseInterceptor_error rt c c.cache endpoint options _ env env1
            env2 env3 response decoded e h1 h2 h3 h4 h5]
          simp only
          omega
        | ok data =>
          rw [requestLive_of_success rt c c.cache endpoint options _ env env1 env2 env3
            response decoded data h1 h2 h3 h4 h5]
          simp only
          omega

/-- A property of sessions that every step keeps holds after any sequence of steps. -/
theorem Session.run_keeps (rt : Runtime) (P : Session → Prop)
    (hstep : ∀ s st, P s → P (Session.step rt s st)) :
    ∀ (steps : List Step) (s : Session), P s → P (Session.run rt s steps) := by
  intro steps
  induction steps with
  | nil => intro s hs; exact hs
  | cons st rest ih =>
    intro s hs
    exact ih (Session.step rt s st) (hstep s st hs)

/-- Every call of the public surface is `request` with the options the method
builds. -/
theorem perform_eq_request (rt : Runtime) (c : APIClient) (env : Env) (call : Call) :
    ∃ endpoint options, perform rt c env call = request rt c endpoint options env ∧
      (∀ e o, call = .get e o → endpoint = e ∧ options = { o with method := some "GET" }) ∧
      ((∀ e o, call ≠ .get e o) → options.methodOrGet ≠ "GET") := by
  cases call with
  | get e o =>
    exact ⟨e, { o with method := some "GET" }, rfl,
      fun e' o' h => by cases h; exact ⟨rfl, rfl⟩, fun h => absurd rfl (h e o)⟩
  | post e d =>
    exact ⟨e, RequestOptions.mk (some "POST") [("Content-Type", "application/json")]
        (some (rt.stringify d)) false, rfl, fun e' o' h => Call.noConfusion h,
      fun _ => by simp [RequestOptions.methodOrGet]⟩
  | put e d =>
    exact ⟨e, RequestOptions.mk (some "PUT") [("Content-Type", "application/json")]
        (some (rt.stringify d)) false, rfl, fun e' o' h => Call.noConfusion h,
      fun _ => by simp [RequestOptions.methodOrGet]⟩
  | delete e =>
    exact ⟨e, { method := some "DELETE" }, rfl, fun e' o' h => Call.noConfusion h,
      fun _ => by simp [RequestOptions.methodOrGet]⟩

theorem perform_sameConfig (rt : Runtime) (c : APIClient) (env : Env) (call : Call) :
    SameConfig c (perform rt c env call).2.1 := by
  cases call <;> exact request_sameConfig rt c _ _ env

/-- The keys after a call: those there before, and possibly, when the call is a
`get` that returned, `GET:` followed by the base address and its endpoint. -/
theorem perform_keys (rt : Runtime) (c : APIClient) (env : Env) (call : Call) :
    ∀ k ∈ (perform rt c env call).2.1.cache.keys,
      k ∈ c.cache.keys ∨
      ∃ endpoint options r, call = .get endpoint options ∧
        (perform rt c env call).1 = .ok r ∧ k = "GET:" ++ (c.baseURL ++ endpoint) := by
  intro k hk
  have hsubset : ∀ (endpoint : String) (options : RequestOptions),
      options.methodOrGet ≠ "GET" →
      k ∈ (request rt c endpoint options env).2.1.cache.keys → k ∈ c.cache.keys := by
    intro endpoint options hne hmem
    simp only [Cache.keys, List.mem_map] at hmem ⊢
    obtain ⟨p, hp, rfl⟩ := hmem
    exact ⟨p, (request_not_get rt c endpoint options env hne).1 p hp, rfl⟩
  cases call with
  | get endpoint options =>
    rcases request_keys rt c endpoint { options with method := some "GET" } env k hk
      with h | ⟨h, _, r, hr⟩
    · exact Or.inl h
    · right
      refine ⟨endpoint, options, r, rfl, hr, ?_⟩
      rw [h]
      simp [getCacheKey, RequestOptions.methodOrGet]
  | post endpoint data =>
    exact Or.inl (hsubset endpoint _ (by simp [RequestOptions.methodOrGet]) hk)
  | put endpoint data =>
    exact Or.inl (hsubset endpoint _ (by simp [RequestOptions.methodOrGet]) hk)
  | delete endpoint =>
    exact Or.inl (hsubset endpoint _ (by simp [RequestOptions.methodOrGet]) hk)

/-- With caching disabled and an empty cache, a request leaves the cache empty, and
when it returns it has made a transport call and says `fromCache: false`. -/
theorem request_of_disabled (rt : Runtime) (c : APIClient) (endpoint : String)
    (options : RequestOptions) (env : Env)
    (hdisabled : c.enableCache = false) (hempty : c.cache = []) :
    (request rt c endpoint options env).2.1.cache = [] ∧
    (request rt c endpoint options env).2.1.enableCache = false ∧
    (∀ r, (request rt c endpoint options env).1 = .ok r →
      env.fetchCalls + 1 ≤ (request rt c endpoint options env).2.2.fetchCalls ∧
      getProperty r "fromCache" = some (.bool false)) := by
  obtain ⟨hmiss, hafter⟩ := lookup_of_empty_cache c endpoint options env.now hempty
  have hconfig := (request_sameConfig rt c endpoint options env).enableCache
  rcases request_outcome rt c endpoint options env with ⟨hhit, _⟩ | ⟨_, e, herr, h⟩ |
    ⟨_, d, hok, h, hcalls⟩
  · rw [hmiss] at hhit
    cases hhit
  · refine ⟨by rw [h, hafter, hempty], by rw [hconfig, hdisabled], ?_⟩
    intro r hr
    rw [herr] at hr
    cases hr
  · refine ⟨?_, by rw [hconfig, hdisabled], ?_⟩
    · rw [h, hafter]
      unfold cacheUpdate
      simp only [setCache, hdisabled, Bool.not_false, if_true, ite_self]
      split
      · rw [invalidateCache_cache_eq_filter, hempty]
        rfl
      · exact hempty
    · intro r hr
      rw [hok] at hr
      cases hr
      exact ⟨hcalls, getProperty_withFromCache d false⟩

/-! ## Caching disabled, and what `setCache` writes (C15) -/

/-- C15: with caching disabled `setCache` is a no-op and `getFromCache` returns `null`;
so from a client with caching disabled and an empty cache, after every sequence
of `get`, `post`, `put` and `delete` calls the cache is still empty, and every
`get` made then that returns has made a transport call and says
`fromCache: false`.  With caching enabled, `setCache(key, payload)` at time `t`
leaves under `key` the entry holding `payload` stamped `t`, and every entry
under another key, and the rest of the client, as it was. -/
theorem disabled_cache_is_never_used (rt : Runtime) (c : APIClient) (env : Env)
    (steps : List Step) (hdisabled : c.enableCache = false) (hempty : c.cache = []) :
    (∀ (other : APIClient) key data now, other.enableCache = false →
      setCache other key data now = other ∧ getFromCache other key now = (.null, other)) ∧
    (Session.run rt (Session.start c env) steps).client.cache = [] ∧
    (Session.run rt (Session.start c env) steps).client.enableCache = false ∧
    (∀ endpoint options world r,
      (get rt (Session.run rt (Session.start c env) steps).client endpoint options world).1
        = .ok r →
      world.fetchCalls + 1
        ≤ (get rt (Session.run rt (Session.start c env) steps).client endpoint options
            world).2.2.fetchCalls ∧
      getProperty r "fromCache" = some (.bool false)) ∧
    (∀ (other : APIClient) key payload t, other.enableCache = true →
      (setCache other key payload t).cache.get key
        = some { data := payload, timestamp := t } ∧
      (∀ k, k ≠ key → (setCache other key payload t).cache.get k = other.cache.get k) ∧
      (∀ p : String × CacheEntry, p.1 ≠ key →
        (p ∈ (setCache other key payload t).cache ↔ p ∈ other.cache)) ∧
      SameConfig other (setCache other key payload t)) := by
  have hkeeps : (Session.run rt (Session.start c env) steps).client.enableCache = false ∧
      (Session.run rt (Session.start c env) steps).client.cache = [] := by
    apply Session.run_keeps rt (fun s => s.client.enableCache = false ∧ s.client.cache = [])
    · intro s st hs
      obtain ⟨endpoint, options, hperf, _, _⟩ := perform_eq_request rt s.client
        { s.env with now := s.env.now + st.idle } st.call
      have hreq := request_of_disabled rt s.client endpoint options
        { s.env with now := s.env.now + st.idle } hs.1 hs.2
      simp only [Session.step, hperf]
      exact ⟨hreq.2.1, hreq.1⟩
    · exact ⟨hdisabled, hempty⟩
  refine ⟨?_, hkeeps.2, hkeeps.1, ?_, ?_⟩
  · intro other key data now hother
    constructor
    · simp [setCache, hother]
    · simp [getFromCache, hother]
  · intro endpoint options world r hr
    exact (request_of_disabled rt _ endpoint { options with method := some "GET" } world
      hkeeps.1 hkeeps.2).2.2 r hr
  · intro other key payload t hother
    have hset : setCache other key payload t
        = { other with cache := other.cache.set key { data := payload, timestamp := t } } := by
      simp [setCache, hother]
    refine ⟨?_, ?_, ?_, setCache_sameConfig other key payload t⟩
    · rw [hset]
      exact Cache.get_set_self _ _ _
    · intro k hk
      rw [hset]
      exact Cache.get_set_of_ne _ _ k _ hk
    · intro p hp
      rw [hset]
      exact Cache.mem_set_of_ne _ _ _ p hp

/-- C15 on a client built with `enableCache: false`: after a `get`, a `post` and a
second `get` of the same endpoint the cache is empty. -/
theorem disabled_cache_is_never_used_witness :
    (Session.run (serverReturning sampleUser)
      (Session.start (APIClient.new sampleBase { enableCache := some false }) { now := 0 })
      [{ idle := 0, call := .get "/users" {} },
       { idle := 10, call := .post "/users" sampleUser },
       { idle := 10, call := .get "/users" {} }]).client.cache = [] :=
  (disabled_cache_is_never_used (serverReturning sampleUser)
    (APIClient.new sampleBase { enableCache := some false }) { now := 0 }
    [{ idle := 0, call := .get "/users" {} },
     { idle := 10, call := .post "/users" sampleUser },
     { idle := 10, call := .get "/users" {} }] rfl rfl).2.1

/-! ## Only reads use the cache (C17) -/

/-- A mutation, as `request` sees it: the cache gains no entry; when the request
interceptors return, a transport call is made; and a result, when there is one,
says `fromCache: false`. -/
theorem mutation_bypasses_cache (rt : Runtime) (c : APIClient) (endpoint : String)
    (options : RequestOptions) (env : Env) (hne : options.methodOrGet ≠ "GET") :
    (∀ p ∈ (request rt c endpoint options env).2.1.cache, p ∈ c.cache) ∧
    (∀ modifiedOptions env1,
      applyRequestInterceptors c (c.baseURL ++ endpoint) options env
        = (.ok modifiedOptions, env1) →
      env.fetchCalls + 1 ≤ (request rt c endpoint options env).2.2.fetchCalls) ∧
    (∀ r, (request rt c endpoint options env).1 = .ok r →
      env.fetchCalls + 1 ≤ (request rt c endpoint options env).2.2.fetchCalls ∧
      getProperty r "fromCache" = some (.bool false)) := by
  have hnot : ¬ (options.methodOrGet = "GET" ∧ options.forceRefresh = false) := fun h => hne h.1
  obtain ⟨hsub, hok⟩ := request_not_get rt c endpoint options env hne
  refine ⟨hsub, ?_, hok⟩
  intro modifiedOptions env1 h1
  rw [request_of_miss rt c endpoint options env (cacheHit_of_not_get c endpoint options _ hnot),
    afterLookup_of_not_get c endpoint options _ hnot]
  exact requestLive_fetches rt c endpoint options modifiedOptions env env1 h1

/-- C17: from a client with an empty cache, after every sequence of `get`, `post`,
`put` and `delete` calls every key in the cache is `GET:` followed by the base
address and the endpoint of a `get` made earlier in the sequence that returned.
And on any client, whatever its cache holds, `post`, `put` and `delete` add no
entry, make a transport call once the request interceptors have returned, and
when they return have made a transport call and say `fromCache: false`: they are
never answered from the cache. -/
theorem only_reads_populate_the_cache (rt : Runtime) (c : APIClient) (env : Env)
    (steps : List Step) (hempty : c.cache = []) :
    (∀ k ∈ (Session.run rt (Session.start c env) steps).client.cache.keys,
      ∃ endpoint options r,
        (Call.get endpoint options, Except.ok r)
          ∈ (Session.run rt (Session.start c env) steps).outcomes ∧
        k = "GET:" ++ (c.baseURL ++ endpoint)) ∧
    (∀ (other : APIClient) endpoint data world,
      (∀ p ∈ (post rt other endpoint data world).2.1.cache, p ∈ other.cache) ∧
      (∀ modifiedOptions env1,
        applyRequestInterceptors other (other.baseURL ++ endpoint)
          (RequestOptions.mk (some "POST") [("Content-Type", "application/json")]
            (some (rt.stringify data)) false) world = (.ok modifiedOptions, env1) →
        world.fetchCalls + 1 ≤ (post rt other endpoint data world).2.2.fetchCalls) ∧
      (∀ r, (post rt other endpoint data world).1 = .ok r →
        world.fetchCalls + 1 ≤ (post rt other endpoint data world).2.2.fetchCalls ∧
        getProperty r "fromCache" = some (.bool false))) ∧
    (∀ (other : APIClient) endpoint data world,
      (∀ p ∈ (put rt other endpoint data world).2.1.cache, p ∈ other.cache) ∧
      (∀ modifiedOptions env1,
        applyRequestInterceptors other (other.baseURL ++ endpoint)
          (RequestOptions.mk (some "PUT") [("Content-Type", "application/json")]
            (some (rt.stringify data)) false) world = (.ok modifiedOptions, env1) →
        world.fetchCalls + 1 ≤ (put rt other endpoint data world).2.2.fetchCalls) ∧
      (∀ r, (put rt other endpoint data world).1 = .ok r →
        world.fetchCalls + 1 ≤ (put rt other endpoint data world).2.2.fetchCalls ∧
        getProperty r "fromCache" = some (.bool false))) ∧
    (∀ (other : APIClient) endpoint world,
      (∀ p ∈ (delete rt other endpoint world).2.1.cache, p ∈ other.cache) ∧
      (∀ modifiedOptions env1,
        applyRequestInterceptors other (other.baseURL ++ endpoint)
          (RequestOptions.mk (some "DELETE") [] none false) world
          = (.ok modifiedOptions, env1) →
        world.fetchCalls + 1 ≤ (delete rt other endpoint world).2.2.fetchCalls) ∧
      (∀ r, (delete rt other endpoint world).1 = .ok r →
        world.fetchCalls + 1 ≤ (delete rt other endpoint world).2.2.fetchCalls ∧
        getProperty r "fromCache" = some (.bool false))) := by
  refine ⟨?_, ?_, ?_, ?_⟩
  · have hkeeps := Session.run_keeps rt
      (fun s => SameConfig c s.client ∧
        ∀ k ∈ s.client.cache.keys, ∃ endpoint options r,
          (Call.get endpoint options, Except.ok r) ∈ s.outcomes ∧
          k = "GET:" ++ (c.baseURL ++ endpoint))
      (by
        intro s st hs
        obtain ⟨hconfig, hkeys⟩ := hs
        constructor
        · exact hconfig.trans (perform_sameConfig rt s.client _ st.call)
        · intro k hk
          rcases perform_keys rt s.client { s.env with now := s.env.now + st.idle } st.call k hk
            with hold | ⟨endpoint, options, r, hcall, hr, hkey⟩
          · obtain ⟨endpoint, options, r, hmem, hkey⟩ := hkeys k hold
            exact ⟨endpoint, options, r, List.mem_append_left _ hmem, hkey⟩
          · refine ⟨endpoint, options, r, ?_, ?_⟩
            · apply List.mem_append_right
              simp only [List.mem_singleton]
              rw [← hr, ← hcall]
            · rw [hkey, hconfig.baseURL])
      steps (Session.start c env)
      ⟨SameConfig.refl c, by
        intro k hk
        simp [Session.start, hempty, Cache.keys] at hk⟩
    exact hkeeps.2
  · intro other endpoint data world
    exact mutation_bypasses_cache rt other endpoint _ world (by simp [RequestOptions.methodOrGet])
  · intro other endpoint data world
    exact mutation_bypasses_cache rt other endpoint _ world (by simp [RequestOptions.methodOrGet])
  · intro other endpoint world
    exact mutation_bypasses_cache rt other endpoint _ world (by simp [RequestOptions.methodOrGet])

/-- C17 on the default client, after `get('/users')`, `post('/posts', user)` and
`get('/posts')`: the key `GET:https://api.example.com/posts` in the cache is that
of a `get` of the sequence that returned; and a `post` on a client that holds a
cached read of `/posts` makes a transport call and says `fromCache: false`. -/
theorem only_reads_populate_the_cache_witness :
    (∃ endpoint options r,
      (Call.get endpoint options, Except.ok r)
        ∈ (Session.run (serverReturning sampleUser)
            (Session.start (APIClient.new sampleBase) { now := 0 })
            [{ idle := 0, call := .get "/users" {} },
             { idle := 10, call := .post "/posts" sampleUser },
             { idle := 10, call := .get "/posts" {} }]).outcomes ∧
      "GET:https://api.example.com/posts"
        = "GET:" ++ ((APIClient.new sampleBase).baseURL ++ endpoint)) ∧
    (0 + 1 ≤ (post (serverReturning sampleUser) clientWithPosts "/posts" sampleUser
        { now := 2000 }).2.2.fetchCalls ∧
      getProperty (withFromCache sampleUser false) "fromCache" = some (.bool false)) :=
  ⟨(only_reads_populate_the_cache (serverReturning sampleUser) (APIClient.new sampleBase)
      { now := 0 }
      [{ idle := 0, call := .get "/users" {} },
       { idle := 10, call := .post "/posts" sampleUser },
       { idle := 10, call := .get "/posts" {} }] rfl).1
      "GET:https://api.example.com/posts" (by decide),
    ((only_reads_populate_the_cache (serverReturning sampleUser) (APIClient.new sampleBase)
      { now := 0 } [] rfl).2.1 clientWithPosts "/posts" sampleUser { now := 2000 }).2.2
      (withFromCache sampleUser false) rfl⟩

end APIClientModel
